import Mathlib

set_option maxRecDepth 4000

/-!
Shallow embedding of the PDF_RENAMER repository ("Sentient Knowledge Engine"),
translated from `src/simple_renamer.ts` (the primary version, namespace `SR`
below) and from the divergent variant `src/unnamed/part_002` (namespace `P2`
below).  Strings are modelled as `List Char` internally, with `String` at the
boundaries.  JavaScript regular-expression operations are translated to
explicit decision procedures on character lists; each translation is noted at
its definition.  Wall-clock data (timestamps, durations) and the random jitter
of backoff timers are abstracted away; external effects (PDF text extraction,
LLM calls, filesystem success or failure) are passed in as explicit oracle
arguments.
-/

namespace PdfRenamer

/-! ### Character classes

ASCII character classes matching the JavaScript regex classes used by the
source (`\d`, `\s`, `\w`, `[A-Z]`, `[A-Za-z]`).  JavaScript `\s` also contains
some rare Unicode spaces; we model the common ones (space, tab, LF, CR, VT,
FF, NBSP), which is exact on all filenames the source manipulates.  JavaScript
`toLowerCase`/`toUpperCase` are modelled on the ASCII range (`asciiLower` /
`asciiUpper`); the regex literals being pure ASCII, this is exact for every
pattern test in the source. -/

def isJsSpace (c : Char) : Bool :=
  c = ' ' || c = '\t' || c = '\n' || c = '\r' || c.toNat = 11 || c.toNat = 12 || c.toNat = 160

def isWordChar (c : Char) : Bool := c.isAlpha || c.isDigit || c = '_'

def asciiLower (c : Char) : Char :=
  match c with
  | 'A' => 'a' | 'B' => 'b' | 'C' => 'c' | 'D' => 'd' | 'E' => 'e' | 'F' => 'f'
  | 'G' => 'g' | 'H' => 'h' | 'I' => 'i' | 'J' => 'j' | 'K' => 'k' | 'L' => 'l'
  | 'M' => 'm' | 'N' => 'n' | 'O' => 'o' | 'P' => 'p' | 'Q' => 'q' | 'R' => 'r'
  | 'S' => 's' | 'T' => 't' | 'U' => 'u' | 'V' => 'v' | 'W' => 'w' | 'X' => 'x'
  | 'Y' => 'y' | 'Z' => 'z'
  | other => other

def asciiUpper (c : Char) : Char :=
  match c with
  | 'a' => 'A' | 'b' => 'B' | 'c' => 'C' | 'd' => 'D' | 'e' => 'E' | 'f' => 'F'
  | 'g' => 'G' | 'h' => 'H' | 'i' => 'I' | 'j' => 'J' | 'k' => 'K' | 'l' => 'L'
  | 'm' => 'M' | 'n' => 'N' | 'o' => 'O' | 'p' => 'P' | 'q' => 'Q' | 'r' => 'R'
  | 's' => 'S' | 't' => 'T' | 'u' => 'U' | 'v' => 'V' | 'w' => 'W' | 'x' => 'X'
  | 'y' => 'Y' | 'z' => 'Z'
  | other => other

def lowerList (l : List Char) : List Char := l.map asciiLower

/-! ### Splitting utilities

`splitChars p` models JavaScript `String.prototype.split` against a
single-character class separator: it cuts at every separator character and
keeps empty pieces, exactly like `"a__b".split("_") = ["a", "", "b"]`. -/

def splitCharsAux (p : Char → Bool) : List Char → List Char → List (List Char)
  | [], acc => [acc.reverse]
  | c :: cs, acc =>
    if p c then acc.reverse :: splitCharsAux p cs []
    else splitCharsAux p cs (c :: acc)

def splitChars (p : Char → Bool) (l : List Char) : List (List Char) :=
  splitCharsAux p l []

/-- The non-empty pieces of a split: the maximal runs of non-separator
characters. -/
def tokensOf (p : Char → Bool) (l : List Char) : List (List Char) :=
  (splitChars p l).filter (fun t => t ≠ [])

/-- JavaScript `split` against the regex `p+` (one-or-more separator
characters, e.g. `split(/\s+/)`): the pieces between maximal separator runs,
with an empty piece at the front (resp. back) exactly when the string starts
(resp. ends) with a separator, and `[""]` for the empty string. -/
def splitOnRuns (p : Char → Bool) (l : List Char) : List (List Char) :=
  match l with
  | [] => [[]]
  | c :: cs =>
    (if p c then [([] : List Char)] else []) ++ tokensOf p (c :: cs) ++
      (if p ((c :: cs).getLastD c) then [([] : List Char)] else [])

/-- `endsWithChars l suf` decides whether `suf` is a suffix of `l`. -/
def endsWithChars (l suf : List Char) : Bool :=
  decide (suf.length ≤ l.length) && decide (l.drop (l.length - suf.length) = suf)

/-! ### The processed-format pattern

`CONFIG.processing.processedFormatRegex` in both versions is

  `/^(\d{2,}_)?[^_]+_[^_]+_\d{4}(_[^_]+)*\.pdf$/i`

(`src/simple_renamer.ts` line 58, `src/unnamed/part_002` line 349).
A whole-string match of this pattern decomposes the name as: an optional
leading underscore-terminated segment of two-or-more digits, then two
non-empty underscore-free segments, then a segment of exactly four digits,
then any number of further non-empty underscore-free segments, with the
final `.pdf` (case-insensitive) closing the string.  Since every piece of the
pattern between underscores is a non-empty `[^_]+` (and `\d{4}` is followed by
either `_` or `.pdf`), the regex matches exactly when: the (lowercased) name
ends in `.pdf`; splitting the rest on `_` yields only non-empty segments; and
either segment 2 is exactly four digits, or segment 0 is all digits with at
least two of them and segment 3 is exactly four digits. -/

def pdfSuffix : List Char := ['.', 'p', 'd', 'f']

def allDigits (l : List Char) : Bool := l.all Char.isDigit

def isYear4 (l : List Char) : Bool := decide (l.length = 4) && allDigits l

def looksProcessed (name : String) : Bool :=
  let s := lowerList name.data
  if endsWithChars s pdfSuffix then
    let segs := (s.take (s.length - 4)).splitOn '_'
    segs.all (fun t => decide (0 < t.length)) &&
      ((decide (3 ≤ segs.length) && isYear4 (segs.getD 2 [])) ||
       (decide (4 ≤ segs.length) && decide (2 ≤ (segs.getD 0 []).length) &&
         allDigits (segs.getD 0 []) && isYear4 (segs.getD 3 [])))
  else false

/-! ### The abnormal-word heuristic

`SystemCore.hasAbnormallyLongWord` (`src/simple_renamer.ts` lines 776-789,
identical in `src/unnamed/part_002`):

    const base = path.basename(filename, '.pdf');
    const rawParts = base.split(/[_-]|\d+/).filter(part => part.length > 0);
    const MAX_WORD_LENGTH = 30;
    for (const part of rawParts) {
        if (part.length < 16) continue;
        const words = part.split(/(?=[A-Z])/).filter(w => w.length > 0);
        for (const word of words) {
            const cleaned = word.replace(/^[^A-Za-z]+/, '');
            if (cleaned.length > MAX_WORD_LENGTH) return true;
        }
    }
    return false;

Splitting on `/[_-]|\d+/` and dropping empty pieces yields exactly the
maximal runs of characters that are neither `_`, `-`, nor digits, so we split
on that character class.  `split(/(?=[A-Z])/)` (a zero-width lookahead) cuts
immediately before each ASCII uppercase letter, except at position 0. -/

/-- Node `path.basename`: the part after the last `/`. -/
def lastComponent (l : List Char) : List Char :=
  (l.splitOn '/').getLastD []

/-- Node `path.basename(p, '.pdf')` additionally strips a final `.pdf`
(case-sensitively, and only when the basename is longer than the
extension). -/
def stripPdfExt (l : List Char) : List Char :=
  if endsWithChars l pdfSuffix && decide (4 < l.length) then l.take (l.length - 4) else l

def splitBeforeUpperAux : List Char → List Char → List (List Char)
  | [], acc => [acc.reverse]
  | c :: cs, acc =>
    if c.isUpper ∧ acc ≠ [] then acc.reverse :: splitBeforeUpperAux cs [c]
    else splitBeforeUpperAux cs (c :: acc)

/-- JavaScript `split(/(?=[A-Z])/)`: cut before every uppercase ASCII letter
except at the start of the string. -/
def splitBeforeUpper (l : List Char) : List (List Char) := splitBeforeUpperAux l []

def rawParts (filename : String) : List (List Char) :=
  (splitChars (fun c => c = '_' || c = '-' || c.isDigit)
      (stripPdfExt (lastComponent filename.data))).filter
    (fun part => decide (0 < part.length))

def pascalWords (part : List Char) : List (List Char) :=
  (splitBeforeUpper part).filter (fun w => decide (0 < w.length))

/-- `word.replace(/^[^A-Za-z]+/, '')`: strip leading non-letters. -/
def cleanWord (w : List Char) : List Char := w.dropWhile (fun c => !c.isAlpha)

def hasAbnormallyLongWord (filename : String) : Bool :=
  (rawParts filename).any fun part =>
    decide (16 ≤ part.length) &&
      (pascalWords part).any (fun w => decide (30 < (cleanWord w).length))

/-! ### Text normalization (`formatText` and friends)

The named characters below avoid character-literal syntax for quote-like
characters: `quoteChar` is the double quote, `apostropheChar` the straight
apostrophe, `backquoteChar` the backquote, `backslashChar` the backslash and
`rightQuoteChar` the right single quotation mark U+2019. -/

def quoteChar : Char := Char.ofNat 34
def apostropheChar : Char := Char.ofNat 39
def backquoteChar : Char := Char.ofNat 96
def backslashChar : Char := Char.ofNat 92
def rightQuoteChar : Char := Char.ofNat 8217

/-- The character class removed by `text.replace(/[\\/&'"`]/g, '')`. -/
def isUnsafeChar (c : Char) : Bool :=
  c = backslashChar || c = '/' || c = '&' || c = apostropheChar ||
    c = quoteChar || c = backquoteChar

/-- The global `specialCharMap` table of `src/simple_renamer.ts` lines 77-107,
mapping accented characters to ASCII; unmapped characters pass through. -/
def specialCharMap (c : Char) : List Char :=
  match c with
  | 'á' | 'à' | 'â' | 'ä' | 'ã' | 'å' => ['a']
  | 'é' | 'è' | 'ê' | 'ë' => ['e']
  | 'í' | 'ì' | 'î' | 'ï' => ['i']
  | 'ó' | 'ò' | 'ô' | 'ö' | 'õ' | 'ø' => ['o']
  | 'ú' | 'ù' | 'û' | 'ü' => ['u']
  | 'ñ' => ['n']
  | 'ç' => ['c']
  | 'ß' => ['s', 's']
  | 'æ' => ['a', 'e']
  | 'œ' => ['o', 'e']
  | 'ý' | 'ÿ' => ['y']
  | 'Á' | 'À' | 'Â' | 'Ä' | 'Ã' | 'Å' => ['A']
  | 'É' | 'È' | 'Ê' | 'Ë' => ['E']
  | 'Í' | 'Ì' | 'Î' | 'Ï' => ['I']
  | 'Ó' | 'Ò' | 'Ô' | 'Ö' | 'Õ' | 'Ø' => ['O']
  | 'Ú' | 'Ù' | 'Û' | 'Ü' => ['U']
  | 'Ñ' => ['N']
  | 'Ç' => ['C']
  | 'Æ' => ['A', 'E']
  | 'Œ' => ['O', 'E']
  | 'Ý' => ['Y']
  | other => [other]

/-- `text.split('').map(char => specialCharMap[char] || char).join('')`. -/
def applySpecialCharMap (l : List Char) : List Char := (l.map specialCharMap).flatten

/-- `text.replace(/P+/g, rep)` for a character class `P`: each maximal run of
`P`-characters becomes the single character `rep`. -/
def collapseRunsAux (p : Char → Bool) (rep : Char) : Bool → List Char → List Char
  | _, [] => []
  | prevSep, c :: cs =>
    if p c then
      (if prevSep then [] else [rep]) ++ collapseRunsAux p rep true cs
    else c :: collapseRunsAux p rep false cs

def collapseRuns (p : Char → Bool) (rep : Char) (l : List Char) : List Char :=
  collapseRunsAux p rep false l

/-- The class `[,.;:!?]` of the title-mode punctuation collapse. -/
def titlePunct (c : Char) : Bool :=
  c = ',' || c = '.' || c = ';' || c = ':' || c = '!' || c = '?'

/-- The class `[,.\s]` of the author-mode separator collapse. -/
def authorSep (c : Char) : Bool := c = ',' || c = '.' || isJsSpace c

/-- JavaScript `text.replace(/(\w+)X(\w+)/g, '$1s')` for a separator character
`X` (the source applies it with the straight apostrophe and with U+2019).
Note that the replacement string is `$1s`: the whole match — including the
second word-character group — is replaced by the first group followed by a
literal `s`.  A match requires a maximal run of word characters immediately
followed by `X` and at least one further word character; scanning resumes
after the match. -/
def possessiveReplaceAux (apo : Char) : Nat → List Char → List Char
  | 0, l => l
  | fuel + 1, l =>
    match l with
    | [] => []
    | c :: cs =>
      if isWordChar c then
        let run := (c :: cs).takeWhile isWordChar
        let rest := (c :: cs).dropWhile isWordChar
        match rest with
        | a :: r2 =>
          if a = apo ∧ 0 < (r2.takeWhile isWordChar).length then
            run ++ 's' :: possessiveReplaceAux apo fuel (r2.dropWhile isWordChar)
          else run ++ possessiveReplaceAux apo fuel rest
        | [] => run
      else c :: possessiveReplaceAux apo fuel cs

/-- The scan is fueled by the input length: every step consumes at least one
character, so the fuel never runs out and the zero-fuel branch is
unreachable. -/
def possessiveReplace (apo : Char) (l : List Char) : List Char :=
  possessiveReplaceAux apo l.length l

/-- JavaScript `text.replace(/\s*-\s*/g, '-')`: every hyphen, together with
any whitespace immediately around it, becomes a bare hyphen.  A match must
contain the hyphen, so whitespace not adjacent to a hyphen is untouched. -/
def hyphenTrimAux : Nat → List Char → List Char
  | 0, l => l
  | fuel + 1, l =>
    match l with
    | [] => []
    | c :: cs =>
      if c = '-' then '-' :: hyphenTrimAux fuel (cs.dropWhile isJsSpace)
      else if isJsSpace c then
        let wsRun := (c :: cs).takeWhile isJsSpace
        let rest := (c :: cs).dropWhile isJsSpace
        match rest with
        | x :: r2 =>
          if x = '-' then '-' :: hyphenTrimAux fuel (r2.dropWhile isJsSpace)
          else wsRun ++ hyphenTrimAux fuel rest
        | [] => wsRun
      else c :: hyphenTrimAux fuel cs

/-- As with `possessiveReplace`, the fuel equals the input length and every
step consumes at least one character. -/
def hyphenTrim (l : List Char) : List Char :=
  hyphenTrimAux l.length l

/-- JavaScript `String.prototype.trim` (whitespace from both ends). -/
def trimChars (l : List Char) : List Char :=
  ((l.dropWhile isJsSpace).reverse.dropWhile isJsSpace).reverse

/-- `removeStopWords` of `src/simple_renamer.ts` lines 653-658: split on
`/\s+/`, drop pieces whose lowercasing is a stop word, re-join with single
spaces.  (Empty boundary pieces produced by `split(/\s+/)` are not stop words
and therefore survive the filter, exactly as in JavaScript.) -/
def stopWords : List (List Char) :=
  ["a", "an", "the", "and", "of", "for", "in", "on", "with", "to", "by",
    "from", "is", "are"].map String.data

def removeStopWords (text : List Char) : List Char :=
  List.intercalate [' ']
    ((splitOnRuns isJsSpace text).filter (fun w => !stopWords.contains (lowerList w)))

/-- `w.charAt(0).toUpperCase() + w.slice(1).toLowerCase()`. -/
def capitalizeWord (w : List Char) : List Char :=
  match w with
  | [] => []
  | c :: rest => asciiUpper c :: rest.map asciiLower

inductive TextMode
  | title
  | author
deriving DecidableEq

namespace SR

/-- `formatText` of `src/simple_renamer.ts` lines 661-692 (the variant with
stop-word removal).  The straight-apostrophe possessive rule is kept even
though the apostrophe was already removed two steps earlier, as in the
source. -/
def formatText (input : List Char) (mode : TextMode) : List Char :=
  let text := if mode = .author then applySpecialCharMap input else input
  let text := text.filter (fun c => !isUnsafeChar c)
  let text :=
    match mode with
    | .title =>
      let t := removeStopWords text
      let t := collapseRuns titlePunct '-' t
      let t := possessiveReplace apostropheChar t
      possessiveReplace rightQuoteChar t
    | .author => collapseRuns authorSep '-' text
  let text := hyphenTrim text
  match mode with
  | .author =>
    List.intercalate ['-']
      ((text.splitOn '-').map (fun part => part.filter (fun c => !isJsSpace c)))
  | .title =>
    List.intercalate ['-']
      ((text.splitOn '-').map (fun part =>
        (((trimChars part).splitOn ' ').map capitalizeWord).flatten))

/-- `formatAuthors` of `src/simple_renamer.ts` lines 695-701. -/
def formatAuthors (authors : List String) : List Char :=
  match authors with
  | [] => []
  | a :: rest =>
    if rest = [] then formatText a.data .author
    else formatText a.data .author ++ '-' :: "EtAl".data

end SR

namespace P2

/-- `formatText` of `src/unnamed/part_002` lines 775-796: identical to the
`simple_renamer.ts` version except that it performs no stop-word removal. -/
def formatText (input : List Char) (mode : TextMode) : List Char :=
  let text := if mode = .author then applySpecialCharMap input else input
  let text := text.filter (fun c => !isUnsafeChar c)
  let text :=
    match mode with
    | .title =>
      let t := collapseRuns titlePunct '-' text
      let t := possessiveReplace apostropheChar t
      possessiveReplace rightQuoteChar t
    | .author => collapseRuns authorSep '-' text
  let text := hyphenTrim text
  match mode with
  | .author =>
    List.intercalate ['-']
      ((text.splitOn '-').map (fun part => part.filter (fun c => !isJsSpace c)))
  | .title =>
    List.intercalate ['-']
      ((text.splitOn '-').map (fun part =>
        (((trimChars part).splitOn ' ').map capitalizeWord).flatten))

/-- `formatAuthors` of `src/unnamed/part_002` lines 798-805. -/
def formatAuthors (authors : List String) : List Char :=
  match authors with
  | [] => []
  | a :: rest =>
    if rest = [] then formatText a.data .author
    else formatText a.data .author ++ '-' :: "EtAl".data

end P2

/-! ### Data model

`ValidatedData` and `FileTypeInfo` as in the source (identical in both
versions).  `Option` models JavaScript `null`/absent; JavaScript string
truthiness (`null` and the empty string are falsy) is `truthy` below.
`confidence` is a rational number; timestamps and durations are omitted from
`JournalEntry` as untracked wall-clock data. -/

inductive DocumentType
  | book
  | chapter
  | article
deriving DecidableEq

structure ValidatedData where
  title : Option String
  authors : List String
  year : Option String
  fileType : Option String
  confidence : ℚ
  documentType : Option DocumentType
  journal : Option String
  volume : Option String
deriving DecidableEq

/-- The low-confidence threshold `0.7` (`analysis.confidence < 0.7`), written
as an explicit fraction so that comparisons against it evaluate by kernel
reduction. -/
def confidenceThreshold : ℚ := ⟨7, 10, by decide, by decide⟩

structure FileTypeInfo where
  isStructural : Bool
  structuralType : Option String
  isChapter : Bool
  enumeration : Option String
deriving DecidableEq

/-- JavaScript truthiness of an optional string. -/
def truthy (o : Option String) : Bool := o.getD "" ≠ ""

/-- The character-list contents of an optional string (`o || ''`). -/
def optStr (o : Option String) : List Char := (o.getD "").data

/-- JavaScript `padStart(2, '0')`. -/
def padStart2 (l : List Char) : List Char :=
  if l.length < 2 then List.replicate (2 - l.length) '0' ++ l else l

/-- `finalParts.filter(Boolean).join('_')`. -/
def assembleParts (parts : List (List Char)) : List Char :=
  List.intercalate ['_'] (parts.filter (fun p => p ≠ []))

namespace SR

/-! ### `SystemCore.formatBaseFilename`, `src/simple_renamer.ts` lines 649-774
(the character-budget version, `maxFilenameLength = 120`).  The function is
split here into the named fixed parts, the title budget, the pre-cap assembly
`assembled`, and the final hard truncation, mirroring the source blocks A-D. -/

def SAFE_MAX : Nat := 120

def authorsStr (d : ValidatedData) : List Char := formatAuthors d.authors

def yearStr (d : ValidatedData) : List Char := optStr d.year

def journalStr (d : ValidatedData) : List Char :=
  if truthy d.journal then 'J' :: '-' :: formatText (optStr d.journal) .title else []

def volumeStr (d : ValidatedData) : List Char :=
  if truthy d.volume then 'V' :: formatText (optStr d.volume) .author else []

def fileTypeStr (d : ValidatedData) : List Char :=
  if truthy d.fileType then formatText (optStr d.fileType) .title else []

def enumStr (t : FileTypeInfo) : List Char :=
  if t.isChapter && truthy t.enumeration then padStart2 (optStr t.enumeration) else []

def fixedParts (d : ValidatedData) (t : FileTypeInfo) : List (List Char) :=
  [authorsStr d, yearStr d, journalStr d, volumeStr d, fileTypeStr d, enumStr t].filter
    (fun p => p ≠ [])

/-- `fixedParts.reduce((acc, p) => acc + p.length, 0) + fixedParts.length`. -/
def fixedLength (d : ValidatedData) (t : FileTypeInfo) : Nat :=
  ((fixedParts d t).map List.length).sum + (fixedParts d t).length

/-- `Math.max(20, SAFE_MAX - fixedLength - 5)`.  (JavaScript computes the
subtraction over signed numbers; since the result is clamped to at least 20,
truncated natural subtraction gives the same value.) -/
def titleBudget (d : ValidatedData) (t : FileTypeInfo) : Nat :=
  max 20 (SAFE_MAX - fixedLength d t - 5)

def finalTitle (d : ValidatedData) (t : FileTypeInfo) : List Char :=
  if truthy d.title then
    let ft := formatText (optStr d.title) .title
    if titleBudget d t < ft.length then ft.take (titleBudget d t) else ft
  else []

/-- Steps A-C of the source: the document-type-specific assembly, before the
final length cap (step D). -/
def assembled (d : ValidatedData) (t : FileTypeInfo) : Option (List Char) :=
  match d.documentType with
  | some .article =>
    if finalTitle d t = [] ∨ authorsStr d = [] ∨ yearStr d = [] then none
    else some (assembleParts
      ([finalTitle d t, authorsStr d, yearStr d] ++
        (if journalStr d ≠ [] then [journalStr d] else []) ++
        (if volumeStr d ≠ [] then [volumeStr d] else [])))
  | _ =>
    if finalTitle d t = [] ∧ t.isStructural = false then none
    else if truthy d.year ∧ isYear4 (yearStr d) = false then none
    else some (assembleParts
      ((if enumStr t ≠ [] then [enumStr t] else []) ++
        (if finalTitle d t ≠ [] then [finalTitle d t] else []) ++
        (if authorsStr d ≠ [] then [authorsStr d] else []) ++
        (if yearStr d ≠ [] then [yearStr d] else []) ++
        (if fileTypeStr d ≠ [] then [fileTypeStr d] else [])))

/-- Step D: `if (result.length > SAFE_MAX) return result.substring(0, SAFE_MAX)`. -/
def formatBaseFilename (d : ValidatedData) (t : FileTypeInfo) : Option String :=
  (assembled d t).map (fun r => String.mk (if SAFE_MAX < r.length then r.take SAFE_MAX else r))

end SR

namespace P2

/-! ### `SystemCore.formatBaseFilename`, `src/unnamed/part_002` lines 774-834
(the plain version, `maxFilenameLength = 200`, no character budget).  Note the
differences from `SR`: the article branch checks the raw inputs (including the
four-digit year test) and joins without `filter(Boolean)`; the book branch
pushes parts by truthiness of the raw inputs and filters before joining; both
branches finish with `substring(0, 200)`. -/

def MAX_LEN : Nat := 200

def assembled (d : ValidatedData) (t : FileTypeInfo) : Option (List Char) :=
  match d.documentType with
  | some .article =>
    if !truthy d.title ∨ d.authors = [] ∨ !truthy d.year ∨ isYear4 (optStr d.year) = false
    then none
    else some (List.intercalate ['_']
      ([formatText (optStr d.title) .title, formatAuthors d.authors, optStr d.year] ++
        (if truthy d.journal then ['J' :: '-' :: formatText (optStr d.journal) .title] else []) ++
        (if truthy d.volume then ['V' :: formatText (optStr d.volume) .author] else [])))
  | _ =>
    if !truthy d.title ∧ t.isStructural = false then none
    else if truthy d.year ∧ isYear4 (optStr d.year) = false then none
    else
      let parts :=
        (if t.isChapter && truthy t.enumeration then [padStart2 (optStr t.enumeration)] else []) ++
        (if truthy d.title then [formatText (optStr d.title) .title] else []) ++
        (if d.authors ≠ [] then [formatAuthors d.authors] else []) ++
        (if truthy d.year then [optStr d.year] else []) ++
        (if truthy d.fileType then [formatText (optStr d.fileType) .title] else [])
      if parts = [] then none
      else some (assembleParts parts)

def formatBaseFilename (d : ValidatedData) (t : FileTypeInfo) : Option String :=
  (assembled d t).map (fun r => String.mk (r.take MAX_LEN))

end P2

/-! ### Journal model

`JournalEntry` as in the source, minus `timestamp` and `durationMs`
(wall-clock data outside the embedding). -/

inductive JournalStatus
  | SUCCESS
  | FAILURE_PARSE
  | FAILURE_AI
  | FAILURE_RENAME
  | SKIPPED_NO_CHANGE
  | SKIPPED_LOW_CONF
  | PROCESSED
deriving DecidableEq

structure JournalEntry where
  file : String
  status : JournalStatus
  details : String
  confidence : Option ℚ := none
  newName : Option String := none
deriving DecidableEq

/-! ### `SystemCore.processEntity`, `src/simple_renamer.ts` lines 791-862

The function is pure except for reading the PDF (`entity.readContent`) and
calling the cognition engine (`analyze`); both external results are passed in
as oracle arguments `content` and `ai`.  A `ProcessResult` records the journal
entries written, the returned rename plan (`null` means skip), and whether the
content read and the AI call were reached — the skip paths return before
either. -/

structure ProcessResult where
  entries : List JournalEntry
  plan : Option (String × String)
  readAttempted : Bool
  aiAttempted : Bool
deriving DecidableEq

/-- The tail of `processEntity` from the `readContent` call on (lines
825-861): parse gate, AI call, confidence gate, formatting and the
no-change gate. -/
def processFileAnalyze (name : String) (t : FileTypeInfo)
    (content : Option String) (ai : Option ValidatedData) : ProcessResult :=
  match content with
  | none =>
    { entries := [{ file := name, status := .FAILURE_PARSE, details := "Insufficient text content." }],
      plan := none, readAttempted := true, aiAttempted := false }
  | some c =>
    if c.length < 100 then
      { entries := [{ file := name, status := .FAILURE_PARSE, details := "Insufficient text content." }],
        plan := none, readAttempted := true, aiAttempted := false }
    else
      match ai with
      | none =>
        { entries := [{ file := name, status := .FAILURE_AI, details := "Cognition failed to produce valid data." }],
          plan := none, readAttempted := true, aiAttempted := true }
      | some v =>
        if v.confidence < confidenceThreshold then
          { entries := [{ file := name, status := .SKIPPED_LOW_CONF, details := "Confidence score below threshold.", confidence := some v.confidence }],
            plan := none, readAttempted := true, aiAttempted := true }
        else
          match SR.formatBaseFilename v t with
          | none =>
            { entries := [{ file := name, status := .SKIPPED_NO_CHANGE, details := "Generated name is invalid or identical.", confidence := some v.confidence }],
              plan := none, readAttempted := true, aiAttempted := true }
          | some b =>
            let newName := b ++ ".pdf"
            if b = "" ∨ lowerList newName.data = lowerList name.data then
              { entries := [{ file := name, status := .SKIPPED_NO_CHANGE, details := "Generated name is invalid or identical.", confidence := some v.confidence }],
                plan := none, readAttempted := true, aiAttempted := true }
            else
              { entries := [], plan := some (name, newName),
                readAttempted := true, aiAttempted := true }

/-- JavaScript truthiness of the `newName?` field. -/
def newNameTruthy (o : Option String) : Bool := o.getD "" ≠ ""

/-- `processEntity`: the short-circuit decision prefix (lines 796-823)
followed by `processFileAnalyze`.  `prev` is the `journalMemory` lookup for
the entity's full path. -/
def processFile (name : String) (t : FileTypeInfo) (prev : Option JournalEntry)
    (content : Option String) (ai : Option ValidatedData) : ProcessResult :=
  if looksProcessed name && !hasAbnormallyLongWord name then
    { entries := [{ file := name, status := .PROCESSED, details := "File already follows naming convention and has no abnormally long concatenated words." }],
      plan := none, readAttempted := false, aiAttempted := false }
  else
    match prev with
    | some e =>
      if e.status = .SUCCESS then
        { entries := [], plan := none, readAttempted := false, aiAttempted := false }
      else if e.status = .FAILURE_RENAME ∧ newNameTruthy e.newName then
        { entries := [], plan := some (name, e.newName.getD ""),
          readAttempted := false, aiAttempted := false }
      else processFileAnalyze name t content ai
    | none => processFileAnalyze name t content ai

/-! ### `LifecycleManager.rename`, `src/simple_renamer.ts` lines 563-614

The protocol is: verify source exists, copy to backup, rename, delete backup,
verify destination.  `failAt` is the oracle for the first failing step
(`none` = all steps succeed).  On success the journal record carries
`newName`; on any failure the `catch` block (lines 606-611) records
`FAILURE_RENAME` without a `newName` field.  The interpolated error text of
the failure `details` is abstracted to a fixed string.  `renameFsOps` lists
the filesystem mutations that complete before the failing step. -/

inductive RenameStep
  | accessSrc
  | copyBackup
  | renameFile
  | unlinkBackup
  | accessDest
deriving DecidableEq

def renameJournalRecord (file newName : String) (failAt : Option RenameStep) : JournalEntry :=
  match failAt with
  | none =>
    { file := file, status := .SUCCESS, details := "Backup created, file renamed, and backup deleted.", newName := some newName }
  | some _ =>
    { file := file, status := .FAILURE_RENAME, details := "Rename failed. Backup retained." }

inductive FsOp
  | copy (src dst : String)
  | move (src dst : String)
  | unlink (p : String)
deriving DecidableEq

def backupName (src : String) : String := src ++ ".ske.bak"

def renameFsOps (src dst : String) (failAt : Option RenameStep) : List FsOp :=
  match failAt with
  | some .accessSrc => []
  | some .copyBackup => []
  | some .renameFile => [.copy src (backupName src)]
  | some .unlinkBackup => [.copy src (backupName src), .move src dst]
  | some .accessDest => [.copy src (backupName src), .move src dst, .unlink (backupName src)]
  | none => [.copy src (backupName src), .move src dst, .unlink (backupName src)]

/-! ### `SystemCore.runSingleCycle`, `src/simple_renamer.ts` lines 908-973,
and the cycle loop of `activate`, lines 864-906

A `FileCtx` bundles one scanned entity together with the oracles its pipeline
consumes: the `journalMemory` lookup, the extracted text, the AI result and
the failing rename step (if any).  Per the source, in dry-run mode a produced
plan is pushed onto the manifest; in live mode it is renamed immediately (and
never pushed).  `cycleEntries` is `journalAfter.slice(previousLength)`: the
entries written during this cycle. -/

structure FileCtx where
  name : String
  typeInfo : FileTypeInfo
  prev : Option JournalEntry
  content : Option String
  ai : Option ValidatedData
  renameFailure : Option RenameStep
deriving DecidableEq

structure CycleResult where
  hasFailures : Bool
  shouldContinue : Bool
  cycleEntries : List JournalEntry
  manifest : List (String × String)
  renamesExecuted : Nat
  pdfOps : List FsOp
deriving DecidableEq

/-- One entity's contribution to the cycle: journal entries written, manifest
entries pushed, renames executed, filesystem operations performed. -/
def fileStep (isDryRun : Bool) (f : FileCtx) :
    List JournalEntry × List (String × String) × Nat × List FsOp :=
  let r := processFile f.name f.typeInfo f.prev f.content f.ai
  match r.plan with
  | none => (r.entries, [], 0, [])
  | some (src, dst) =>
    if isDryRun then (r.entries, [(src, dst)], 0, [])
    else (r.entries ++ [renameJournalRecord f.name dst f.renameFailure], [], 1,
      renameFsOps src dst f.renameFailure)

def failureStatuses : List JournalStatus :=
  [.FAILURE_PARSE, .FAILURE_AI, .FAILURE_RENAME, .SKIPPED_LOW_CONF]

def goodStatuses : List JournalStatus := [.PROCESSED, .SKIPPED_NO_CHANGE, .SUCCESS]

def runSingleCycle (isDryRun : Bool) (files : List FileCtx) : CycleResult :=
  if files = [] then
    { hasFailures := false, shouldContinue := false, cycleEntries := [],
      manifest := [], renamesExecuted := 0, pdfOps := [] }
  else
    let steps := files.map (fileStep isDryRun)
    let cycleEntries := (steps.map (fun s => s.1)).flatten
    let manifest := (steps.map (fun s => s.2.1)).flatten
    let renames := (steps.map (fun s => s.2.2.1)).sum
    let ops := (steps.map (fun s => s.2.2.2)).flatten
    let hasFailures := cycleEntries.any (fun e => failureStatuses.contains e.status)
    let onlyGoodSkips := decide (0 < cycleEntries.length) &&
      cycleEntries.all (fun e => goodStatuses.contains e.status)
    if manifest.length = 0 ∧ onlyGoodSkips then
      { hasFailures := false, shouldContinue := false, cycleEntries := cycleEntries,
        manifest := manifest, renamesExecuted := renames, pdfOps := ops }
    else
      { hasFailures := hasFailures, shouldContinue := true, cycleEntries := cycleEntries,
        manifest := manifest, renamesExecuted := renames, pdfOps := ops }

/-- The LIVE-mode loop of `activate`: up to `maxCycles` cycles, stopping when
`shouldContinue` is false; the `Bool` paired with each cycle result records
whether the cooldown wait (`CONFIG.retry.delayMinutes`) was performed after
that cycle.  `inputs` supplies each cycle's scan result (the directory may
change between cycles). -/
def activateLiveLoop : Nat → List (List FileCtx) → List (CycleResult × Bool)
  | 0, _ => []
  | _, [] => []
  | fuel + 1, fs :: rest =>
    let r := runSingleCycle false fs
    if r.shouldContinue = false then [(r, false)]
    else (r, r.hasFailures) :: activateLiveLoop fuel rest

def maxCycles : Nat := 50

/-- `activate`: dry-run mode performs exactly one cycle with `isDryRun =
true`; live mode runs the loop. -/
def activateTrace (live : Bool) (inputs : List (List FileCtx)) : List (CycleResult × Bool) :=
  if live then activateLiveLoop maxCycles inputs
  else [(runSingleCycle true (inputs.headD []), false)]

/-- The rename plans produced by the classification pipeline over a scan. -/
def plannedRenames (files : List FileCtx) : List (String × String) :=
  files.filterMap (fun f => (processFile f.name f.typeInfo f.prev f.content f.ai).plan)

/-! ### Credential rotation (`AI_CognitionEngine.analyze`)

The inner per-model key-rotation loops of the two versions, as transition
systems over the shared static cursor `currentKeyIndex`.  Each attempt's
outcome is supplied by an oracle list (`CallResult`); the run ends when the
oracle is exhausted, a result is returned, or the loop breaks to the next
model.  Backoff durations (which carry random jitter) are abstracted to a
`backoff` event; `n` is the key-pool size.

`src/simple_renamer.ts` lines 393-488: on success the code executes
`startIndexForCycle = currentKeyIndex` (updating only the loop-local cycle
start) and returns — the shared cursor is not advanced.  On a transient error
the cursor advances; if it wraps to `startIndexForCycle`, a quota error resets
the cursor to 0 and breaks to the next model (no backoff), while a generic
rate limit backs off and restarts the cycle at the current cursor.  A
non-transient error breaks to the next model.

`src/unnamed/part_002` lines 567-648: on success the cursor advances by one
(`currentKeyIndex = (currentKeyIndex + 1) % API_KEYS.length`).  On a 429 /
RESOURCE_EXHAUSTED error the cursor advances; when it wraps to the cycle
start the code increments `fullKeyCycleCount` (bounded by `MAX_CYCLES = 10`)
and waits before continuing.  Any other error breaks to the next model. -/

inductive CallResult
  | success
  | rateLimit
  | quotaError
  | permanentError
deriving DecidableEq

inductive RotEvent
  | attempt (keyIndex : Nat)
  | backoff
  | modelSwitch
deriving DecidableEq

/-- The inner key loop of `src/simple_renamer.ts` (lines 397-488) for one
model: arguments are pool size, current shared cursor, `startIndexForCycle`;
returns the events, the final shared cursor, and whether a result was
returned. -/
def srKeyLoop (n : Nat) : Nat → Nat → List CallResult → List RotEvent × Nat × Bool
  | cursor, _, [] => ([], cursor, false)
  | cursor, startIdx, r :: rs =>
    match r with
    | .success => ([.attempt cursor], cursor, true)
    | .permanentError => ([.attempt cursor, .modelSwitch], cursor, false)
    | .quotaError =>
      let c2 := (cursor + 1) % n
      if c2 = startIdx then ([.attempt cursor, .modelSwitch], 0, false)
      else
        let rec2 := srKeyLoop n c2 startIdx rs
        (.attempt cursor :: rec2.1, rec2.2)
    | .rateLimit =>
      let c2 := (cursor + 1) % n
      if c2 = startIdx then
        let rec2 := srKeyLoop n c2 c2 rs
        (.attempt cursor :: .backoff :: rec2.1, rec2.2)
      else
        let rec2 := srKeyLoop n c2 startIdx rs
        (.attempt cursor :: rec2.1, rec2.2)

/-- The inner key loop of `src/unnamed/part_002` (lines 567-648) for one
model: arguments are pool size, `cycleStartIndex`, current shared cursor,
`fullKeyCycleCount`; 429 and RESOURCE_EXHAUSTED are one transient class
here. -/
def p2MaxKeyCycles : Nat := 10

def p2KeyLoop (n cycleStart : Nat) : Nat → Nat → List CallResult → List RotEvent × Nat × Bool
  | cursor, _, [] => ([], cursor, false)
  | cursor, cnt, r :: rs =>
    if p2MaxKeyCycles ≤ cnt then ([], cursor, false)
    else
      match r with
      | .success => ([.attempt cursor], (cursor + 1) % n, true)
      | .permanentError => ([.attempt cursor, .modelSwitch], cursor, false)
      | .rateLimit | .quotaError =>
        let c2 := (cursor + 1) % n
        if c2 = cycleStart then
          let rec2 := p2KeyLoop n cycleStart c2 (cnt + 1) rs
          (.attempt cursor :: .backoff :: rec2.1, rec2.2)
        else
          let rec2 := p2KeyLoop n cycleStart c2 cnt rs
          (.attempt cursor :: rec2.1, rec2.2)

/-! ### Paths, the scanner and the journal memory

Paths are component lists.  `SystemCore.loadJournalMemory`
(`src/simple_renamer.ts` lines 1036-1045) replays the journal newest-first,
keeping the first entry seen per key, where the key is
`path.resolve(this.directory, entry.file)` — the recorded basename resolved
directly against the scan root (journal entries record `entity.name`, a
basename, so resolution appends one component).  `SystemCore.processEntity`
looks the memory up at `entity.fullPath`.  `SystemCore.findAllPaths` (lines
1020-1034) walks the tree recursively collecting `.pdf` files
(case-insensitive extension). -/

abbrev FsPath := List String

/-- `path.resolve(directory, basename)` for a separator-free basename. -/
def resolveEntry (root : FsPath) (basename : String) : FsPath := root ++ [basename]

def memInsert (m : List (FsPath × JournalEntry)) (k : FsPath) (e : JournalEntry) :
    List (FsPath × JournalEntry) :=
  if m.any (fun kv => kv.1 = k) then m else (k, e) :: m

/-- `loadJournalMemory`: iterate the journal from the last entry to the
first, inserting each entry under its resolved path unless that key is
already present. -/
def loadJournalMemory (root : FsPath) (entries : List JournalEntry) :
    List (FsPath × JournalEntry) :=
  entries.reverse.foldl (fun m e => memInsert m (resolveEntry root e.file) e) []

def memLookup (m : List (FsPath × JournalEntry)) (k : FsPath) : Option JournalEntry :=
  (m.find? (fun kv => decide (kv.1 = k))).map (fun kv => kv.2)

inductive DirEntry
  | file (name : String)
  | dir (name : String) (children : List DirEntry)

def isPdfName (name : String) : Bool := endsWithChars (lowerList name.data) pdfSuffix

def findAllPaths : FsPath → List DirEntry → List FsPath
  | _, [] => []
  | cur, .file n :: rest =>
    (if isPdfName n then [cur ++ [n]] else []) ++ findAllPaths cur rest
  | cur, .dir d children :: rest =>
    findAllPaths (cur ++ [d]) children ++ findAllPaths cur rest

/-! ## Helper lemmas -/

lemma intercalate_single (s : List Char) (x : List Char) :
    List.intercalate s [x] = x := by
  simp [List.intercalate]

lemma intercalate_cons_cons (s : List Char) (x y : List Char) (ys : List (List Char)) :
    List.intercalate s (x :: y :: ys) = x ++ s ++ List.intercalate s (y :: ys) := by
  simp [List.intercalate, List.intersperse_cons_cons]

lemma map_intercalate_single (f : Char → Char) (s : Char) (parts : List (List Char)) :
    (List.intercalate [s] parts).map f = List.intercalate [f s] (parts.map (List.map f)) := by
  induction parts with
  | nil => simp [List.intercalate]
  | cons x rest ih =>
    cases rest with
    | nil => simp [intercalate_single]
    | cons y ys =>
      rw [intercalate_cons_cons, List.map_append, List.map_append, ih]
      simp only [List.map_cons, List.map_nil]
      rw [intercalate_cons_cons]

lemma asciiLower_underscore_iff (c : Char) : asciiLower c = '_' ↔ c = '_' := by
  constructor
  · intro h
    unfold asciiLower at h
    split at h <;> simp_all
  · intro h
    subst h
    rfl

lemma asciiLower_of_isDigit (c : Char) (h : c.isDigit = true) : asciiLower c = c := by
  unfold asciiLower
  split <;> simp_all

lemma lowerList_of_allDigits (l : List Char) (h : allDigits l = true) : lowerList l = l := by
  unfold allDigits at h
  rw [List.all_eq_true] at h
  unfold lowerList
  induction l with
  | nil => rfl
  | cons c cs ih =>
    rw [List.map_cons, asciiLower_of_isDigit c (h c (by simp)),
      ih (fun d hd => h d (List.mem_cons_of_mem c hd))]

lemma underscore_not_mem_lowerList (l : List Char) (h : '_' ∉ l) : '_' ∉ lowerList l := by
  intro hmem
  unfold lowerList at hmem
  rw [List.mem_map] at hmem
  obtain ⟨c, hc, heq⟩ := hmem
  exact h ((asciiLower_underscore_iff c).mp heq ▸ hc)

lemma length_lowerList (l : List Char) : (lowerList l).length = l.length :=
  List.length_map l asciiLower

lemma getD_map_lowerList (parts : List (List Char)) (i : Nat) :
    (parts.map lowerList).getD i [] = lowerList (parts.getD i []) := by
  induction parts generalizing i with
  | nil => cases i <;> rfl
  | cons x rest ih =>
    cases i with
    | zero => rfl
    | succ n => simpa using ih n

/-- The per-part cost of a joined filename: length plus one separator for a
non-empty part, zero for an empty one. -/
def termLen (s : List Char) : Nat := if s = [] then 0 else s.length + 1

lemma length_intercalate_le_termLen (parts : List (List Char))
    (h : ∀ x ∈ parts, x ≠ []) :
    (List.intercalate ['_'] parts).length ≤ (parts.map termLen).sum := by
  induction parts with
  | nil => simp [List.intercalate]
  | cons x rest ih =>
    cases rest with
    | nil =>
      have hx : x ≠ [] := h x (by simp)
      simp [intercalate_single, termLen, hx]
    | cons y ys =>
      rw [intercalate_cons_cons]
      have hx : x ≠ [] := h x (by simp)
      have ih2 := ih (fun z hz => h z (List.mem_cons_of_mem x hz))
      have hterm : termLen x = x.length + 1 := by simp [termLen, hx]
      simp only [List.map_cons, List.sum_cons] at ih2 ⊢
      simp only [List.length_append, List.length_cons, List.length_nil, hterm]
      omega

lemma filter_term_sum (l : List (List Char)) :
    (((l.filter (fun p => p ≠ [])).map List.length).sum +
      (l.filter (fun p => p ≠ [])).length) = (l.map termLen).sum := by
  induction l with
  | nil => simp
  | cons x rest ih =>
    by_cases hx : x = []
    · subst hx
      rw [List.filter_cons_of_neg (by simp)]
      have ht : termLen ([] : List Char) = 0 := by simp [termLen]
      simp only [List.map_cons, List.sum_cons, ht, ih]
      omega
    · rw [List.filter_cons_of_pos (by simpa using hx)]
      have ht : termLen x = x.length + 1 := by simp [termLen, hx]
      simp only [List.map_cons, List.sum_cons, List.length_cons, ht]
      omega

lemma termLen_sum_filter_le (l : List (List Char)) :
    ((l.filter (fun p => p ≠ [])).map termLen).sum ≤ (l.map termLen).sum := by
  induction l with
  | nil => simp
  | cons x rest ih =>
    by_cases hx : x = []
    · subst hx
      rw [List.filter_cons_of_neg (by simp)]
      simp only [List.map_cons, List.sum_cons]
      omega
    · rw [List.filter_cons_of_pos (by simpa using hx)]
      simp only [List.map_cons, List.sum_cons]
      omega

lemma filter_eq_self_of_ne_nil (parts : List (List Char)) (h : ∀ x ∈ parts, x ≠ []) :
    parts.filter (fun p => p ≠ []) = parts := by
  rw [List.filter_eq_self]
  intro a ha
  simpa using h a ha

/-- The central pattern-coverage lemma: joining non-empty, underscore-free
segments with underscores and appending `.pdf` produces a name accepted by
`looksProcessed`, provided the segments present a four-digit year at index 2,
or an all-digit index-0 segment of length at least two with a four-digit year
at index 3. -/
lemma looksProcessed_intercalate (parts : List (List Char))
    (hnonempty : ∀ x ∈ parts, x ≠ [])
    (hund : ∀ x ∈ parts, '_' ∉ x)
    (hmatch : (3 ≤ parts.length ∧ isYear4 (parts.getD 2 []) = true) ∨
      (4 ≤ parts.length ∧ 2 ≤ (parts.getD 0 []).length ∧
        allDigits (parts.getD 0 []) = true ∧ isYear4 (parts.getD 3 []) = true)) :
    looksProcessed (String.mk (List.intercalate ['_'] parts) ++ ".pdf") = true := by
  have hne : parts ≠ [] := by
    rcases hmatch with ⟨h3, _⟩ | ⟨h3, _⟩ <;> (intro hcon; subst hcon; simp at h3)
  have hdata : (String.mk (List.intercalate ['_'] parts) ++ ".pdf").data
      = List.intercalate ['_'] parts ++ pdfSuffix := by
    simp [pdfSuffix]
  have hlowpdf : lowerList pdfSuffix = pdfSuffix := by decide
  have hlow : lowerList (List.intercalate ['_'] parts ++ pdfSuffix)
      = List.intercalate ['_'] (parts.map lowerList) ++ pdfSuffix := by
    unfold lowerList
    rw [List.map_append]
    have h1 : (List.intercalate ['_'] parts).map asciiLower
        = List.intercalate ['_'] (parts.map (List.map asciiLower)) := by
      have := map_intercalate_single asciiLower '_' parts
      simpa using this
    have h2 : List.map asciiLower pdfSuffix = pdfSuffix := by decide
    rw [h1, h2]
  have hlen4 : pdfSuffix.length = 4 := by decide
  have hends : endsWithChars
      (List.intercalate ['_'] (parts.map lowerList) ++ pdfSuffix) pdfSuffix = true := by
    have h1 : (List.intercalate ['_'] (parts.map lowerList) ++ pdfSuffix).drop
        ((List.intercalate ['_'] (parts.map lowerList) ++ pdfSuffix).length - pdfSuffix.length)
        = pdfSuffix := by
      rw [List.length_append, hlen4, Nat.add_sub_cancel, List.drop_left]
    unfold endsWithChars
    rw [h1]
    simp [List.length_append, hlen4]
  have hsplit : (List.intercalate ['_'] (parts.map lowerList)).splitOn '_'
      = parts.map lowerList := by
    have hx : ∀ l ∈ parts.map lowerList, ('_' : Char) ∉ l := by
      intro l hl
      rw [List.mem_map] at hl
      obtain ⟨x, hx1, hx2⟩ := hl
      exact hx2 ▸ underscore_not_mem_lowerList x (hund x hx1)
    have hls : parts.map lowerList ≠ [] := by
      simpa using hne
    exact List.splitOn_intercalate (parts.map lowerList) '_' hx hls
  have hall : (parts.map lowerList).all (fun t => decide (0 < t.length)) = true := by
    rw [List.all_eq_true]
    intro t ht
    rw [List.mem_map] at ht
    obtain ⟨x, hx1, hx2⟩ := ht
    have := hnonempty x hx1
    subst hx2
    simp [length_lowerList]
    exact List.length_pos.mpr this
  simp only [looksProcessed, hdata, hlow, hends, if_true, List.length_append, hlen4,
    Nat.add_sub_cancel, List.take_left, hsplit, hall, Bool.true_and]
  rcases hmatch with ⟨h3, hy⟩ | ⟨h4, h0len, h0dig, hy⟩
  · have hgd : (parts.map lowerList).getD 2 [] = parts.getD 2 [] := by
      rw [getD_map_lowerList]
      exact lowerList_of_allDigits _ (by
        unfold isYear4 at hy
        simp only [Bool.and_eq_true] at hy
        exact hy.2)
    rw [Bool.or_eq_true]
    left
    rw [Bool.and_eq_true]
    constructor
    · simp only [List.length_map]
      simp only [decide_eq_true_eq]
      omega
    · rw [hgd]
      exact hy
  · have hgd0 : (parts.map lowerList).getD 0 [] = parts.getD 0 [] := by
      rw [getD_map_lowerList]
      exact lowerList_of_allDigits _ h0dig
    have hgd3 : (parts.map lowerList).getD 3 [] = parts.getD 3 [] := by
      rw [getD_map_lowerList]
      exact lowerList_of_allDigits _ (by
        unfold isYear4 at hy
        simp only [Bool.and_eq_true] at hy
        exact hy.2)
    rw [Bool.or_eq_true]
    right
    rw [Bool.and_eq_true, Bool.and_eq_true, Bool.and_eq_true]
    refine ⟨⟨⟨?_, ?_⟩, ?_⟩, ?_⟩
    · simp only [List.length_map]
      simp only [decide_eq_true_eq]
      omega
    · rw [hgd0]
      simpa using h0len
    · rw [hgd0]
      exact h0dig
    · rw [hgd3]
      exact hy

lemma assembleParts_length_le (parts : List (List Char)) :
    (assembleParts parts).length ≤ (parts.map termLen).sum := by
  unfold assembleParts
  have h1 := length_intercalate_le_termLen (parts.filter (fun p => p ≠ []))
    (fun x hx => by simpa using (List.mem_filter.mp hx).2)
  have h2 := termLen_sum_filter_le parts
  omega

/-- The joined length plus one is bounded by the sum of the terminated
lengths: each of the `k` surviving parts pays `length + 1` into the sum,
while the join spends only `k - 1` separators. -/
lemma length_intercalate_succ_le (parts : List (List Char))
    (h : ∀ x ∈ parts, x ≠ []) (hne : parts ≠ []) :
    (List.intercalate ['_'] parts).length + 1 ≤ (parts.map termLen).sum := by
  induction parts with
  | nil => exact absurd rfl hne
  | cons x rest ih =>
    cases rest with
    | nil =>
      have hx : x ≠ [] := h x (by simp)
      simp [intercalate_single, termLen, hx]
    | cons y ys =>
      rw [intercalate_cons_cons]
      have hx : x ≠ [] := h x (by simp)
      have ih2 := ih (fun z hz => h z (List.mem_cons_of_mem x hz)) (by simp)
      have hterm : termLen x = x.length + 1 := by simp [termLen, hx]
      simp only [List.map_cons, List.sum_cons] at ih2 ⊢
      simp only [List.length_append, List.length_cons, List.length_nil, hterm]
      omega

lemma assembleParts_length_succ_le (parts : List (List Char))
    (h : assembleParts parts ≠ []) :
    (assembleParts parts).length + 1 ≤ (parts.map termLen).sum := by
  have hf : parts.filter (fun p => p ≠ []) ≠ [] := by
    intro hcon
    apply h
    unfold assembleParts
    rw [hcon]
    rfl
  unfold assembleParts
  have h1 := length_intercalate_succ_le (parts.filter (fun p => p ≠ []))
    (fun x hx => by simpa using (List.mem_filter.mp hx).2) hf
  have h2 := termLen_sum_filter_le parts
  omega

lemma fixedLength_eq (d : ValidatedData) (t : FileTypeInfo) :
    SR.fixedLength d t =
      termLen (SR.authorsStr d) + termLen (SR.yearStr d) + termLen (SR.journalStr d) +
        termLen (SR.volumeStr d) + termLen (SR.fileTypeStr d) + termLen (SR.enumStr t) := by
  unfold SR.fixedLength SR.fixedParts
  rw [filter_term_sum]
  simp only [List.map_cons, List.map_nil, List.sum_cons, List.sum_nil]
  omega

lemma finalTitle_le_budget (d : ValidatedData) (t : FileTypeInfo) :
    (SR.finalTitle d t).length ≤ SR.titleBudget d t := by
  simp only [SR.finalTitle]
  split
  · split
    · simp [List.length_take]
    · omega
  · simp

lemma termLen_finalTitle_le (d : ValidatedData) (t : FileTypeInfo) :
    termLen (SR.finalTitle d t) ≤ SR.titleBudget d t + 1 := by
  unfold termLen
  split
  · omega
  · have := finalTitle_le_budget d t
    omega

lemma sum_if_singleton_le (c : Prop) [Decidable c] (x : List Char) :
    (((if c then [x] else []).map termLen).sum) ≤ termLen x := by
  split <;> simp

lemma assembled_length_le (d : ValidatedData) (t : FileTypeInfo) (r : List Char)
    (h : SR.assembled d t = some r) :
    r.length ≤ termLen (SR.finalTitle d t) + SR.fixedLength d t := by
  rw [fixedLength_eq]
  unfold SR.assembled at h
  split at h
  · split at h
    · exact absurd h (by simp)
    · have hr : r = assembleParts
          ([SR.finalTitle d t, SR.authorsStr d, SR.yearStr d] ++
            (if SR.journalStr d ≠ [] then [SR.journalStr d] else []) ++
            (if SR.volumeStr d ≠ [] then [SR.volumeStr d] else [])) := by
        exact (Option.some.injEq _ _ ▸ h).symm
      subst hr
      have hb := assembleParts_length_le
        ([SR.finalTitle d t, SR.authorsStr d, SR.yearStr d] ++
          (if SR.journalStr d ≠ [] then [SR.journalStr d] else []) ++
          (if SR.volumeStr d ≠ [] then [SR.volumeStr d] else []))
      have hJ := sum_if_singleton_le (SR.journalStr d ≠ []) (SR.journalStr d)
      have hV := sum_if_singleton_le (SR.volumeStr d ≠ []) (SR.volumeStr d)
      simp only [List.map_append, List.sum_append, List.map_cons, List.map_nil,
        List.sum_cons, List.sum_nil] at hb
      have hF : 0 ≤ termLen (SR.fileTypeStr d) := Nat.zero_le _
      have hE : 0 ≤ termLen (SR.enumStr t) := Nat.zero_le _
      omega
  · split at h
    · exact absurd h (by simp)
    · split at h
      · exact absurd h (by simp)
      · have hr : r = assembleParts
            ((if SR.enumStr t ≠ [] then [SR.enumStr t] else []) ++
              (if SR.finalTitle d t ≠ [] then [SR.finalTitle d t] else []) ++
              (if SR.authorsStr d ≠ [] then [SR.authorsStr d] else []) ++
              (if SR.yearStr d ≠ [] then [SR.yearStr d] else []) ++
              (if SR.fileTypeStr d ≠ [] then [SR.fileTypeStr d] else [])) := by
          exact (Option.some.injEq _ _ ▸ h).symm
        subst hr
        have hb := assembleParts_length_le
          ((if SR.enumStr t ≠ [] then [SR.enumStr t] else []) ++
            (if SR.finalTitle d t ≠ [] then [SR.finalTitle d t] else []) ++
            (if SR.authorsStr d ≠ [] then [SR.authorsStr d] else []) ++
            (if SR.yearStr d ≠ [] then [SR.yearStr d] else []) ++
            (if SR.fileTypeStr d ≠ [] then [SR.fileTypeStr d] else []))
        have hE := sum_if_singleton_le (SR.enumStr t ≠ []) (SR.enumStr t)
        have hT := sum_if_singleton_le (SR.finalTitle d t ≠ []) (SR.finalTitle d t)
        have hA := sum_if_singleton_le (SR.authorsStr d ≠ []) (SR.authorsStr d)
        have hY := sum_if_singleton_le (SR.yearStr d ≠ []) (SR.yearStr d)
        have hF := sum_if_singleton_le (SR.fileTypeStr d ≠ []) (SR.fileTypeStr d)
        simp only [List.map_append, List.sum_append] at hb
        have hJ : 0 ≤ termLen (SR.journalStr d) := Nat.zero_le _
        have hV : 0 ≤ termLen (SR.volumeStr d) := Nat.zero_le _
        omega

/-- The tight form of `assembled_length_le` for a non-empty result: the join
spends one separator less than `termLen` accounts for. -/
lemma assembled_length_succ_le (d : ValidatedData) (t : FileTypeInfo) (r : List Char)
    (h : SR.assembled d t = some r) (hne : r ≠ []) :
    r.length + 1 ≤ termLen (SR.finalTitle d t) + SR.fixedLength d t := by
  rw [fixedLength_eq]
  unfold SR.assembled at h
  split at h
  · split at h
    · exact absurd h (by simp)
    · have hr : r = assembleParts
          ([SR.finalTitle d t, SR.authorsStr d, SR.yearStr d] ++
            (if SR.journalStr d ≠ [] then [SR.journalStr d] else []) ++
            (if SR.volumeStr d ≠ [] then [SR.volumeStr d] else [])) := by
        exact (Option.some.injEq _ _ ▸ h).symm
      subst hr
      have hb := assembleParts_length_succ_le
        ([SR.finalTitle d t, SR.authorsStr d, SR.yearStr d] ++
          (if SR.journalStr d ≠ [] then [SR.journalStr d] else []) ++
          (if SR.volumeStr d ≠ [] then [SR.volumeStr d] else [])) hne
      have hJ := sum_if_singleton_le (SR.journalStr d ≠ []) (SR.journalStr d)
      have hV := sum_if_singleton_le (SR.volumeStr d ≠ []) (SR.volumeStr d)
      simp only [List.map_append, List.sum_append, List.map_cons, List.map_nil,
        List.sum_cons, List.sum_nil] at hb
      have hF : 0 ≤ termLen (SR.fileTypeStr d) := Nat.zero_le _
      have hE : 0 ≤ termLen (SR.enumStr t) := Nat.zero_le _
      omega
  · split at h
    · exact absurd h (by simp)
    · split at h
      · exact absurd h (by simp)
      · have hr : r = assembleParts
            ((if SR.enumStr t ≠ [] then [SR.enumStr t] else []) ++
              (if SR.finalTitle d t ≠ [] then [SR.finalTitle d t] else []) ++
              (if SR.authorsStr d ≠ [] then [SR.authorsStr d] else []) ++
              (if SR.yearStr d ≠ [] then [SR.yearStr d] else []) ++
              (if SR.fileTypeStr d ≠ [] then [SR.fileTypeStr d] else [])) := by
          exact (Option.some.injEq _ _ ▸ h).symm
        subst hr
        have hb := assembleParts_length_succ_le
          ((if SR.enumStr t ≠ [] then [SR.enumStr t] else []) ++
            (if SR.finalTitle d t ≠ [] then [SR.finalTitle d t] else []) ++
            (if SR.authorsStr d ≠ [] then [SR.authorsStr d] else []) ++
            (if SR.yearStr d ≠ [] then [SR.yearStr d] else []) ++
            (if SR.fileTypeStr d ≠ [] then [SR.fileTypeStr d] else [])) hne
        have hE := sum_if_singleton_le (SR.enumStr t ≠ []) (SR.enumStr t)
        have hT := sum_if_singleton_le (SR.finalTitle d t ≠ []) (SR.finalTitle d t)
        have hA := sum_if_singleton_le (SR.authorsStr d ≠ []) (SR.authorsStr d)
        have hY := sum_if_singleton_le (SR.yearStr d ≠ []) (SR.yearStr d)
        have hF := sum_if_singleton_le (SR.fileTypeStr d ≠ []) (SR.fileTypeStr d)
        simp only [List.map_append, List.sum_append] at hb
        have hJ : 0 ≤ termLen (SR.journalStr d) := Nat.zero_le _
        have hV : 0 ≤ termLen (SR.volumeStr d) := Nat.zero_le _
        omega

/-- Whenever the fixed metadata parts leave room under the cap
(`fixedLength ≤ 100`), the final hard truncation of step D never fires: the
formatter output is exactly the pre-cap assembly.  The threshold is tight:
the worst case is a 20-character budgeted title plus the fixed fields, so a
`fixedLength` of 101 can overflow the 120-character cap. -/
lemma formatBaseFilename_no_cap (d : ValidatedData) (t : FileTypeInfo)
    (hfix : SR.fixedLength d t ≤ 100) :
    SR.formatBaseFilename d t = (SR.assembled d t).map (fun r => String.mk r) := by
  unfold SR.formatBaseFilename
  cases h : SR.assembled d t with
  | none => rfl
  | some r =>
    simp only [Option.map_some']
    by_cases hne : r = []
    · subst hne
      rw [if_neg (by unfold SR.SAFE_MAX; simp)]
    · have hb := assembled_length_succ_le d t r h hne
      have hT := termLen_finalTitle_le d t
      have hbud : SR.titleBudget d t = max 20 (115 - SR.fixedLength d t) := by
        unfold SR.titleBudget SR.SAFE_MAX
        omega
      rw [if_neg (by unfold SR.SAFE_MAX; omega)]

lemma processFileAnalyze_readAttempted (name : String) (t : FileTypeInfo)
    (content : Option String) (ai : Option ValidatedData) :
    (processFileAnalyze name t content ai).readAttempted = true := by
  unfold processFileAnalyze
  cases content with
  | none => rfl
  | some c =>
    by_cases h : c.length < 100
    · simp only [if_pos h]
    · simp only [if_neg h]
      cases ai with
      | none => rfl
      | some v =>
        by_cases hc : v.confidence < confidenceThreshold
        · simp only [if_pos hc]
        · simp only [if_neg hc]
          cases hfb : SR.formatBaseFilename v t with
          | none => rfl
          | some b =>
            by_cases hb : b = "" ∨ lowerList (b ++ ".pdf").data = lowerList name.data
            · simp only [if_pos hb]
            · simp only [if_neg hb]

/-- A `FileTypeInfo` with no structural or chapter classification. -/
def plainInfo : FileTypeInfo :=
  { isStructural := false, structuralType := none, isChapter := false, enumeration := none }

/-! ## Claims -/

/-- Claim C9: `hasAbnormallyLongWord` returns true iff some
underscore/hyphen/digit-delimited segment of the basename of length at least
16 contains, after splitting at embedded uppercase boundaries and stripping
leading non-letters, a sub-word longer than 30 characters; in particular it
returns false when every sub-word is at most 30 characters long (e.g. a
25-letter term), and false when every segment is shorter than 16 characters
regardless of content. -/
theorem c9_abnormal_word_characterization (name : String) :
    (hasAbnormallyLongWord name = true ↔
      ∃ part ∈ rawParts name, 16 ≤ part.length ∧
        ∃ w ∈ pascalWords part, 30 < (cleanWord w).length) ∧
    ((∀ part ∈ rawParts name, part.length < 16) → hasAbnormallyLongWord name = false) ∧
    ((∀ part ∈ rawParts name, ∀ w ∈ pascalWords part, (cleanWord w).length ≤ 30) →
      hasAbnormallyLongWord name = false) := by
  have hiff : hasAbnormallyLongWord name = true ↔
      ∃ part ∈ rawParts name, 16 ≤ part.length ∧
        ∃ w ∈ pascalWords part, 30 < (cleanWord w).length := by
    simp only [hasAbnormallyLongWord, List.any_eq_true, Bool.and_eq_true, decide_eq_true_eq]
  refine ⟨hiff, ?_, ?_⟩
  · intro hshort
    cases h : hasAbnormallyLongWord name with
    | false => rfl
    | true =>
      obtain ⟨part, hp, hlen, _⟩ := hiff.mp h
      have := hshort part hp
      omega
  · intro hsmall
    cases h : hasAbnormallyLongWord name with
    | false => rfl
    | true =>
      obtain ⟨part, hp, _, w, hw, hlen⟩ := hiff.mp h
      have := hsmall part hp w hw
      omega

/-- Witness for C9 at concrete names: a name whose segments are all shorter
than 16 characters is not flagged; a name containing a 25-letter scientific
term inside a long segment is not flagged either (every PascalCase sub-word is
at most 30 letters). -/
theorem c9_abnormal_word_witness :
    hasAbnormallyLongWord "Short_Words_2024.pdf" = false ∧
    hasAbnormallyLongWord "Electroencephalographical_Auth_2024.pdf" = false := by
  constructor
  · exact (c9_abnormal_word_characterization "Short_Words_2024.pdf").2.1 (by decide)
  · exact (c9_abnormal_word_characterization
      "Electroencephalographical_Auth_2024.pdf").2.2 (by decide)

/-- Claim C1: `processEntity` decides by short-circuit steps in order: (1) a
processed-looking name without an abnormally long word is skipped with a
`PROCESSED` record and neither the content read, the AI call, nor a rename is
reached; (2) otherwise a most-recent journal entry with status `SUCCESS`
skips (with no record); (3) otherwise a `FAILURE_RENAME` entry recording a
(non-empty) `newName` returns exactly that cached name as the rename target
without reaching the AI layer; (4) in all remaining cases (no history, or a
prior entry that is neither `SUCCESS` nor a `newName`-bearing
`FAILURE_RENAME` — e.g. `FAILURE_AI`, `FAILURE_PARSE`, `SKIPPED_LOW_CONF`, or
a processed-looking but abnormal name) processing proceeds to extraction and
AI analysis. -/
theorem c1_reprocessing_decision_order (name : String) (t : FileTypeInfo)
    (prev : Option JournalEntry) (content : Option String) (ai : Option ValidatedData) :
    (looksProcessed name = true → hasAbnormallyLongWord name = false →
      processFile name t prev content ai =
        { entries := [{ file := name, status := .PROCESSED, details := "File already follows naming convention and has no abnormally long concatenated words." }],
          plan := none, readAttempted := false, aiAttempted := false }) ∧
    ((looksProcessed name && !hasAbnormallyLongWord name) = false →
      (∀ e, prev = some e → e.status = .SUCCESS →
        processFile name t prev content ai =
          { entries := [], plan := none, readAttempted := false, aiAttempted := false }) ∧
      (∀ e nn, prev = some e → e.status = .FAILURE_RENAME → e.newName = some nn → nn ≠ "" →
        processFile name t prev content ai =
          { entries := [], plan := some (name, nn),
            readAttempted := false, aiAttempted := false }) ∧
      ((∀ e, prev = some e → e.status ≠ .SUCCESS ∧
          (e.status = .FAILURE_RENAME → e.newName.getD "" = "")) →
        processFile name t prev content ai = processFileAnalyze name t content ai ∧
          (processFileAnalyze name t content ai).readAttempted = true)) := by
  constructor
  · intro h1 h2
    unfold processFile
    rw [if_pos]
    rw [h1, h2]
    rfl
  · intro hfalse
    refine ⟨?_, ?_, ?_⟩
    · intro e he hs
      unfold processFile
      rw [if_neg (by simp [hfalse]), he]
      simp [hs]
    · intro e nn he hs hn hne
      subst he
      unfold processFile
      rw [if_neg (by simp [hfalse])]
      dsimp only
      simp [hs, newNameTruthy, hn, hne]
    · intro hrest
      constructor
      · unfold processFile
        rw [if_neg (by simp [hfalse])]
        cases prev with
        | none => rfl
        | some e =>
          have h1 := (hrest e rfl).1
          have h2 := (hrest e rfl).2
          dsimp only
          rw [if_neg h1, if_neg]
          intro hcon
          obtain ⟨hs, hnn⟩ := hcon
          have := h2 hs
          unfold newNameTruthy at hnn
          rw [this] at hnn
          simp at hnn
      · exact processFileAnalyze_readAttempted name t content ai

/-- Witness for C1 at concrete inputs: a processed-looking clean name is
skipped with a `PROCESSED` record; a prior `SUCCESS` entry skips silently; a
prior `FAILURE_RENAME` entry with a cached name recovers it; no history
proceeds to analysis (the read is attempted). -/
theorem c1_reprocessing_decision_witness :
    processFile "Data_Smith_2020.pdf" plainInfo none none none =
      { entries := [{ file := "Data_Smith_2020.pdf", status := .PROCESSED, details := "File already follows naming convention and has no abnormally long concatenated words." }],
        plan := none, readAttempted := false, aiAttempted := false } ∧
    processFile "doc1.pdf" plainInfo
        (some { file := "doc1.pdf", status := .SUCCESS, details := "prior" }) none none =
      { entries := [], plan := none, readAttempted := false, aiAttempted := false } ∧
    processFile "doc1.pdf" plainInfo
        (some { file := "doc1.pdf", status := .FAILURE_RENAME, details := "prior", newName := some "Cached_Name_2020.pdf" }) none none =
      { entries := [], plan := some ("doc1.pdf", "Cached_Name_2020.pdf"),
        readAttempted := false, aiAttempted := false } ∧
    (processFile "doc1.pdf" plainInfo none none none =
        processFileAnalyze "doc1.pdf" plainInfo none none ∧
      (processFileAnalyze "doc1.pdf" plainInfo none none).readAttempted = true) := by
  refine ⟨?_, ?_, ?_, ?_⟩
  · exact (c1_reprocessing_decision_order "Data_Smith_2020.pdf" plainInfo none none none).1
      (by decide) (by decide)
  · exact ((c1_reprocessing_decision_order "doc1.pdf" plainInfo _ none none).2
      (by decide)).1 _ rfl rfl
  · exact ((c1_reprocessing_decision_order "doc1.pdf" plainInfo _ none none).2
      (by decide)).2.1 _ "Cached_Name_2020.pdf" rfl rfl rfl (by decide)
  · exact ((c1_reprocessing_decision_order "doc1.pdf" plainInfo none none none).2
      (by decide)).2.2 (by intro e he; cases he)

/-- Claim C3 (code bug): a rename failing at any protocol step is journaled
as `FAILURE_RENAME`, but the catch block (`src/simple_renamer.ts` lines
606-611) omits the attempted `newName` from the record — only the success
record carries one — so on the next run `processEntity` takes the full
analysis path again instead of returning RECOVER with the cached name, even
though its recovery branch exists and fires for any entry that does carry a
non-empty `newName`.  A failure after the backup copy also retains the
backup. -/
theorem c3_rename_failure_misses_newName (file newName : String) (step : RenameStep)
    (content : Option String) (ai : Option ValidatedData) :
    (renameJournalRecord file newName (some step)).status = .FAILURE_RENAME ∧
    (renameJournalRecord file newName (some step)).newName = none ∧
    (renameJournalRecord file newName none).newName = some newName ∧
    processFile "doc1.pdf" plainInfo (some (renameJournalRecord file newName (some step)))
        content ai = processFileAnalyze "doc1.pdf" plainInfo content ai ∧
    (∀ e : JournalEntry, e.status = .FAILURE_RENAME → e.newName = some "X.pdf" →
      processFile "doc1.pdf" plainInfo (some e) content ai =
        { entries := [], plan := some ("doc1.pdf", "X.pdf"),
          readAttempted := false, aiAttempted := false }) ∧
    FsOp.copy file (backupName file) ∈ renameFsOps file newName (some .renameFile) ∧
    FsOp.unlink (backupName file) ∉ renameFsOps file newName (some .renameFile) := by
  refine ⟨rfl, rfl, rfl, ?_, ?_, ?_, ?_⟩
  · unfold processFile
    rw [if_neg (by decide)]
    dsimp only
    have hrec : renameJournalRecord file newName (some step) =
        { file := file, status := .FAILURE_RENAME, details := "Rename failed. Backup retained." } := rfl
    rw [hrec]
    rw [if_neg (by simp), if_neg (by simp [newNameTruthy])]
  · intro e hs hn
    unfold processFile
    rw [if_neg (by decide)]
    dsimp only
    simp [hs, hn, newNameTruthy]
  · simp [renameFsOps]
  · simp [renameFsOps]

/-- Witness for C3 at a concrete failing rename: the attempted target
`Cached_Name_2020.pdf` is absent from the failure record, and the recovery
branch would have fired had it been recorded. -/
theorem c3_rename_failure_witness :
    (renameJournalRecord "doc1.pdf" "Cached_Name_2020.pdf" (some .renameFile)).newName = none ∧
    processFile "doc1.pdf" plainInfo
        (some (renameJournalRecord "doc1.pdf" "Cached_Name_2020.pdf" (some .renameFile)))
        none none = processFileAnalyze "doc1.pdf" plainInfo none none ∧
    processFile "doc1.pdf" plainInfo
        (some { file := "doc1.pdf", status := .FAILURE_RENAME, details := "x", newName := some "X.pdf" })
        none none =
      { entries := [], plan := some ("doc1.pdf", "X.pdf"),
        readAttempted := false, aiAttempted := false } := by
  refine ⟨?_, ?_, ?_⟩
  · exact (c3_rename_failure_misses_newName "doc1.pdf" "Cached_Name_2020.pdf"
      RenameStep.renameFile none none).2.1
  · exact (c3_rename_failure_misses_newName "doc1.pdf" "Cached_Name_2020.pdf"
      RenameStep.renameFile none none).2.2.2.1
  · exact (c3_rename_failure_misses_newName "doc1.pdf" "Cached_Name_2020.pdf"
      RenameStep.renameFile none none).2.2.2.2.1 _ rfl rfl

lemma loadJournalMemory_keys (root : FsPath) (entries : List JournalEntry) :
    ∀ kv ∈ loadJournalMemory root entries, ∃ e : JournalEntry, kv.1 = root ++ [e.file] := by
  unfold loadJournalMemory
  suffices h : ∀ (l : List JournalEntry) (m : List (FsPath × JournalEntry)),
      (∀ kv ∈ m, ∃ e : JournalEntry, kv.1 = root ++ [e.file]) →
      ∀ kv ∈ l.foldl (fun m e => memInsert m (resolveEntry root e.file) e) m,
        ∃ e : JournalEntry, kv.1 = root ++ [e.file] by
    exact fun kv hkv => h entries.reverse [] (by simp) kv hkv
  intro l
  induction l with
  | nil =>
    intro m hm kv hkv
    exact hm kv hkv
  | cons x xs ih =>
    intro m hm kv hkv
    refine ih _ ?_ kv hkv
    intro kv2 hkv2
    simp only [memInsert] at hkv2
    split at hkv2
    · exact hm kv2 hkv2
    · rcases List.mem_cons.mp hkv2 with h2 | h2
      · exact ⟨x, by rw [h2]; rfl⟩
      · exact hm kv2 h2

/-- Claim C10: journal history never applies to subdirectory files.
`loadJournalMemory` keys every entry by resolving the recorded basename
directly against the scan root (one extra path component), while
`processEntity` looks up the entity's full path — so every scanned file at
depth two or more below the root finds no prior entry, although the scanner
does discover such files recursively. -/
theorem c10_subdir_files_have_no_history (root : FsPath) (entries : List JournalEntry)
    (tree : List DirEntry) (p : FsPath)
    (hscan : p ∈ findAllPaths root tree) (hdepth : root.length + 2 ≤ p.length) :
    memLookup (loadJournalMemory root entries) p = none ∧
    (∀ d n : String, isPdfName n = true →
      root ++ [d, n] ∈ findAllPaths root [DirEntry.dir d [DirEntry.file n]]) := by
  constructor
  · unfold memLookup
    rw [List.find?_eq_none.mpr, Option.map_none']
    intro kv hkv
    obtain ⟨e, he⟩ := loadJournalMemory_keys root entries kv hkv
    have hlen : kv.1.length = root.length + 1 := by
      rw [he]
      simp
    simp only [decide_eq_true_eq]
    intro hcon
    rw [hcon] at hlen
    omega
  · intro d n hpdf
    simp [findAllPaths, hpdf]

/-- Witness for C10: with root `r`, a journal entry for basename `a.pdf`, and
the scanned subdirectory file `r/sub/a.pdf`, the memory lookup finds
nothing even though the same basename is recorded. -/
theorem c10_subdir_files_witness :
    memLookup
      (loadJournalMemory ["r"]
        [{ file := "a.pdf", status := .SUCCESS, details := "", newName := some "b.pdf" }])
      ["r", "sub", "a.pdf"] = none := by
  have hpdf : isPdfName "a.pdf" = true := by decide
  exact (c10_subdir_files_have_no_history ["r"]
    [{ file := "a.pdf", status := .SUCCESS, details := "", newName := some "b.pdf" }]
    [DirEntry.dir "sub" [DirEntry.file "a.pdf"]] ["r", "sub", "a.pdf"]
    (by simp [findAllPaths, hpdf]) (by decide)).1

/-- Counterexample to C5 as stated: in `src/simple_renamer.ts`, a structurally
successful AI call leaves the shared credential cursor unchanged (here: index
2 of a 5-key pool stays 2) instead of advancing one position to 3 — the
success path updates only the loop-local `startIndexForCycle`. -/
theorem c5_counterexample :
    srKeyLoop 5 2 2 [CallResult.success] = ([RotEvent.attempt 2], 2, true) ∧
    (2 + 1) % 5 = 3 ∧ (2 : Nat) ≠ 3 := by
  exact ⟨rfl, rfl, by decide⟩

/-- Claim C5 (amended): in the `part_002` variant the claim holds — a
successful call advances the shared cursor exactly one position modulo the
pool size, and a transient-failure loop that wraps back to the cycle start
triggers a backoff before further attempts.  In `src/simple_renamer.ts` the
cursor is left unchanged on success; a full loop of generic rate-limit
failures triggers a backoff, while a full loop of quota failures switches to
the next model (cursor reset to 0) without backoff. -/
theorem c5_rotation_amended (n cursor startIdx cycleStart cnt : Nat) (rs : List CallResult) :
    (srKeyLoop n cursor startIdx (CallResult.success :: rs) =
      ([RotEvent.attempt cursor], cursor, true)) ∧
    ((cursor + 1) % n = startIdx →
      srKeyLoop n cursor startIdx (CallResult.quotaError :: rs) =
        ([RotEvent.attempt cursor, RotEvent.modelSwitch], 0, false)) ∧
    ((cursor + 1) % n = startIdx →
      srKeyLoop n cursor startIdx (CallResult.rateLimit :: rs) =
        (RotEvent.attempt cursor :: RotEvent.backoff ::
            (srKeyLoop n ((cursor + 1) % n) ((cursor + 1) % n) rs).1,
          (srKeyLoop n ((cursor + 1) % n) ((cursor + 1) % n) rs).2)) ∧
    (cnt < p2MaxKeyCycles →
      p2KeyLoop n cycleStart cursor cnt (CallResult.success :: rs) =
        ([RotEvent.attempt cursor], (cursor + 1) % n, true)) ∧
    (cnt < p2MaxKeyCycles → (cursor + 1) % n = cycleStart →
      p2KeyLoop n cycleStart cursor cnt (CallResult.rateLimit :: rs) =
        (RotEvent.attempt cursor :: RotEvent.backoff ::
            (p2KeyLoop n cycleStart ((cursor + 1) % n) (cnt + 1) rs).1,
          (p2KeyLoop n cycleStart ((cursor + 1) % n) (cnt + 1) rs).2)) := by
  refine ⟨rfl, ?_, ?_, ?_, ?_⟩
  · intro h
    simp [srKeyLoop, h]
  · intro h
    simp [srKeyLoop, h]
  · intro h
    simp [p2KeyLoop, Nat.not_le.mpr h]
  · intro h1 h2
    simp [p2KeyLoop, Nat.not_le.mpr h1, h2]

/-- Witness for C5 (amended) at pool size 5, cursor 4, cycle start 0: the
`part_002` success advances 4 to 0; the wrapped rate-limit backs off in both
variants; the wrapped quota switches models in `src/simple_renamer.ts`. -/
theorem c5_rotation_witness :
    p2KeyLoop 5 0 4 0 [CallResult.success] = ([RotEvent.attempt 4], 0, true) ∧
    srKeyLoop 5 4 0 [CallResult.quotaError] =
      ([RotEvent.attempt 4, RotEvent.modelSwitch], 0, false) ∧
    srKeyLoop 5 4 0 [CallResult.rateLimit, CallResult.success] =
      ([RotEvent.attempt 4, RotEvent.backoff, RotEvent.attempt 0], 0, true) ∧
    p2KeyLoop 5 0 4 0 [CallResult.rateLimit, CallResult.success] =
      ([RotEvent.attempt 4, RotEvent.backoff, RotEvent.attempt 0], 1, true) := by
  refine ⟨?_, ?_, ?_, ?_⟩
  · exact (c5_rotation_amended 5 4 0 0 0 [CallResult.success]).2.2.2.1 (by decide)
  · exact (c5_rotation_amended 5 4 0 0 0 [CallResult.quotaError]).2.1 (by decide)
  · have h := (c5_rotation_amended 5 4 0 0 0 [CallResult.success]).2.2.1 (by decide)
    rw [h]
    rfl
  · have h := (c5_rotation_amended 5 4 0 0 0 [CallResult.success]).2.2.2.2 (by decide) (by decide)
    rw [h]
    rfl

lemma runSingleCycle_manifest (b : Bool) (files : List FileCtx) :
    (runSingleCycle b files).manifest =
      if files = [] then [] else ((files.map (fileStep b)).map (fun s => s.2.1)).flatten := by
  simp only [runSingleCycle]
  split
  · rfl
  · split
    · rfl
    · rfl

lemma runSingleCycle_renames (b : Bool) (files : List FileCtx) :
    (runSingleCycle b files).renamesExecuted =
      if files = [] then 0 else ((files.map (fileStep b)).map (fun s => s.2.2.1)).sum := by
  simp only [runSingleCycle]
  split
  · rfl
  · split
    · rfl
    · rfl

lemma runSingleCycle_pdfOps (b : Bool) (files : List FileCtx) :
    (runSingleCycle b files).pdfOps =
      if files = [] then [] else ((files.map (fileStep b)).map (fun s => s.2.2.2)).flatten := by
  simp only [runSingleCycle]
  split
  · rfl
  · split
    · rfl
    · rfl

lemma fileStep_dry_fields (f : FileCtx) :
    (fileStep true f).2.1 = (processFile f.name f.typeInfo f.prev f.content f.ai).plan.toList ∧
    (fileStep true f).2.2.1 = 0 ∧ (fileStep true f).2.2.2 = [] := by
  unfold fileStep
  cases hp : (processFile f.name f.typeInfo f.prev f.content f.ai).plan with
  | none => simp [hp]
  | some pr =>
    obtain ⟨src, dst⟩ := pr
    simp [hp]

lemma fileStep_live_manifest (f : FileCtx) : (fileStep false f).2.1 = [] := by
  unfold fileStep
  cases hp : (processFile f.name f.typeInfo f.prev f.content f.ai).plan with
  | none => simp [hp]
  | some pr =>
    obtain ⟨src, dst⟩ := pr
    simp [hp]

lemma flatten_map_toList (g : FileCtx → Option (String × String)) (files : List FileCtx) :
    (files.map (fun f => (g f).toList)).flatten = files.filterMap g := by
  induction files with
  | nil => rfl
  | cons x xs ih => cases hx : g x <;> simp [hx, ih, List.filterMap_cons]

lemma contains_good_iff (s : JournalStatus) :
    goodStatuses.contains s = true ↔ s ∈ goodStatuses := by
  cases s <;> decide

lemma contains_failure_iff (s : JournalStatus) :
    failureStatuses.contains s = true ↔ s ∈ failureStatuses := by
  cases s <;> decide

lemma good_not_failure (s : JournalStatus) : s ∈ goodStatuses → s ∉ failureStatuses := by
  cases s <;> decide

lemma cycle_hasFailures_iff (b : Bool) (files : List FileCtx) :
    (runSingleCycle b files).hasFailures = true ↔
      ∃ e ∈ (runSingleCycle b files).cycleEntries, e.status ∈ failureStatuses := by
  simp only [runSingleCycle]
  split
  · simp
  · split
    · rename_i hcond
      obtain ⟨hman, hgood⟩ := hcond
      simp only [Bool.and_eq_true, decide_eq_true_eq, List.all_eq_true] at hgood
      dsimp only
      constructor
      · intro hcon
        cases hcon
      · rintro ⟨e, he, hef⟩
        exact absurd hef (good_not_failure _ ((contains_good_iff _).mp (hgood.2 e he)))
    · dsimp only
      simp only [List.any_eq_true]
      constructor
      · rintro ⟨e, he, hef⟩
        exact ⟨e, he, (contains_failure_iff _).mp hef⟩
      · rintro ⟨e, he, hef⟩
        exact ⟨e, he, (contains_failure_iff _).mpr hef⟩

lemma cycle_shouldContinue_iff (b : Bool) (files : List FileCtx) :
    (runSingleCycle b files).shouldContinue = false ↔
      (files = [] ∨ ((runSingleCycle b files).manifest = [] ∧
        (runSingleCycle b files).cycleEntries ≠ [] ∧
        ∀ e ∈ (runSingleCycle b files).cycleEntries, e.status ∈ goodStatuses)) := by
  simp only [runSingleCycle]
  split
  · rename_i hnil
    simp [hnil]
  · rename_i hnil
    split
    · rename_i hcond
      obtain ⟨hman, hgood⟩ := hcond
      simp only [Bool.and_eq_true, decide_eq_true_eq, List.all_eq_true] at hgood
      dsimp only
      constructor
      · intro _
        right
        refine ⟨List.eq_nil_of_length_eq_zero hman, ?_, ?_⟩
        · intro hcon
          rw [hcon] at hgood
          simp at hgood
        · intro e he
          exact (contains_good_iff _).mp (hgood.2 e he)
      · intro _
        rfl
    · rename_i hcond
      dsimp only
      constructor
      · intro hcon
        cases hcon
      · rintro (h | ⟨hman, hne, hgood⟩)
        · exact absurd h hnil
        · exfalso
          apply hcond
          constructor
          · rw [hman]
            rfl
          · simp only [Bool.and_eq_true, decide_eq_true_eq, List.all_eq_true]
            refine ⟨by simpa using List.length_pos.mpr hne, ?_⟩
            intro e he
            exact (contains_good_iff _).mpr (hgood e he)

lemma cycle_live_manifest (files : List FileCtx) :
    (runSingleCycle false files).manifest = [] := by
  rw [runSingleCycle_manifest]
  split
  · rfl
  · rw [List.flatten_eq_nil_iff.mpr]
    intro l hl
    simp only [List.map_map, List.mem_map] at hl
    obtain ⟨f, _, hf⟩ := hl
    rw [← hf]
    exact fileStep_live_manifest f

lemma activateLiveLoop_waits (fuel : Nat) (inputs : List (List FileCtx)) :
    ∀ x ∈ activateLiveLoop fuel inputs,
      (x.2 = true ↔ x.1.hasFailures = true ∧ x.1.shouldContinue = true) := by
  induction fuel generalizing inputs with
  | zero =>
    intro x hx
    simp only [activateLiveLoop, List.not_mem_nil] at hx
  | succ n ih =>
    intro x hx
    cases inputs with
    | nil => simp only [activateLiveLoop, List.not_mem_nil] at hx
    | cons fs rest =>
      simp only [activateLiveLoop] at hx
      split at hx
      · rename_i hsc
        rcases List.mem_singleton.mp hx with h
        subst h
        simp [hsc]
      · rename_i hsc
        rcases List.mem_cons.mp hx with h | h
        · subst h
          have : (runSingleCycle false fs).shouldContinue = true := by
            cases hval : (runSingleCycle false fs).shouldContinue
            · exact absurd hval hsc
            · rfl
          simp [this]
        · exact ih rest x h

def c6Content : String := String.mk (List.replicate 120 'x')

def c6Ai : ValidatedData :=
  { title := some "Zebra Physics", authors := ["Jon Haidt"], year := some "2012",
    fileType := none, confidence := ⟨9, 10, by decide, by decide⟩, documentType := some .book,
    journal := none, volume := none }

def c6File : FileCtx :=
  { name := "doc1.pdf", typeInfo := plainInfo, prev := none,
    content := some c6Content, ai := some c6Ai, renameFailure := none }

/-- Counterexample to C6 as stated: a live cycle whose single file is renamed
successfully returns `shouldContinue = false` even though it executed one
rename — live mode renames inline without pushing to the manifest, and the
resulting `SUCCESS` entry counts as a good terminal status. -/
theorem c6_counterexample :
    (runSingleCycle false [c6File]).shouldContinue = false ∧
    (runSingleCycle false [c6File]).renamesExecuted = 1 ∧
    (runSingleCycle false [c6File]).cycleEntries =
      [{ file := "doc1.pdf", status := .SUCCESS, details := "Backup created, file renamed, and backup deleted.", newName := some "ZebraPhysics_Jon-Haidt_2012.pdf" }] := by
  refine ⟨by decide, by decide, by decide⟩

/-- Claim C6 (amended): `hasFailures` is true exactly when some journal entry
written this cycle has a failure status (`FAILURE_PARSE`, `FAILURE_AI`,
`FAILURE_RENAME`, `SKIPPED_LOW_CONF`); `shouldContinue` is false exactly when
either no files were found or the manifest is empty and the non-empty set of
entries written this cycle are all good terminal statuses (`PROCESSED`,
`SKIPPED_NO_CHANGE`, `SUCCESS`) — but in live mode the manifest is always
empty (renames run inline and are not counted), so a live cycle whose renames
all succeed also stops; the orchestrator performs the cooldown wait after
exactly the continuing cycles that had failures. -/
theorem c6_cycle_outcome_amended :
    (∀ (isDryRun : Bool) (files : List FileCtx),
      ((runSingleCycle isDryRun files).hasFailures = true ↔
        ∃ e ∈ (runSingleCycle isDryRun files).cycleEntries, e.status ∈ failureStatuses) ∧
      ((runSingleCycle isDryRun files).shouldContinue = false ↔
        (files = [] ∨ ((runSingleCycle isDryRun files).manifest = [] ∧
          (runSingleCycle isDryRun files).cycleEntries ≠ [] ∧
          ∀ e ∈ (runSingleCycle isDryRun files).cycleEntries, e.status ∈ goodStatuses)))) ∧
    (∀ files : List FileCtx, (runSingleCycle false files).manifest = []) ∧
    (∀ (fuel : Nat) (inputs : List (List FileCtx)) (x : CycleResult × Bool),
      x ∈ activateLiveLoop fuel inputs →
        (x.2 = true ↔ x.1.hasFailures = true ∧ x.1.shouldContinue = true)) := by
  refine ⟨?_, cycle_live_manifest, ?_⟩
  · intro b files
    exact ⟨cycle_hasFailures_iff b files, cycle_shouldContinue_iff b files⟩
  · intro fuel inputs x hx
    exact activateLiveLoop_waits fuel inputs x hx

/-- Witness for C6 (amended) on the concrete live cycle of `c6File`: the
equivalences instantiate to the observed outcome (no failure entry, stopping
despite the executed rename), and a failing dry cycle continues with a
cooldown-marked trace item. -/
theorem c6_cycle_outcome_witness :
    (runSingleCycle false [c6File]).hasFailures = false ∧
    (runSingleCycle false [c6File]).shouldContinue = false ∧
    (activateLiveLoop 50 [[c6File]]).map (fun x => x.2) = [false] := by
  refine ⟨?_, ?_, ?_⟩
  · cases hval : (runSingleCycle false [c6File]).hasFailures
    · rfl
    · exact absurd (((c6_cycle_outcome_amended.1 false [c6File]).1).mp hval) (by decide)
  · exact ((c6_cycle_outcome_amended.1 false [c6File]).2).mpr (by right; refine ⟨?_, ?_, ?_⟩ <;> decide)
  · have h := c6_cycle_outcome_amended.2.2 50 [[c6File]]
    decide

/-- Claim C7: in DRY_RUN mode (no `--live` flag) the activation performs a
single pass whose manifest is exactly the planned rename list, and no
filesystem mutation touches any scanned PDF: no rename is executed and the
performed operation list (copy to backup, rename, delete backup) is empty. -/
theorem c7_dry_run_frame (inputs : List (List FileCtx)) (files : List FileCtx) :
    activateTrace false inputs = [(runSingleCycle true (inputs.headD []), false)] ∧
    (runSingleCycle true files).pdfOps = [] ∧
    (runSingleCycle true files).renamesExecuted = 0 ∧
    (runSingleCycle true files).manifest = plannedRenames files := by
  refine ⟨?_, ?_, ?_, ?_⟩
  · simp [activateTrace]
  · rw [runSingleCycle_pdfOps]
    split
    · rfl
    · rw [List.flatten_eq_nil_iff.mpr]
      intro l hl
      simp only [List.map_map, List.mem_map] at hl
      obtain ⟨f, _, hf⟩ := hl
      rw [← hf]
      exact (fileStep_dry_fields f).2.2
  · rw [runSingleCycle_renames]
    split
    · rfl
    · apply List.sum_eq_zero
      intro x hx
      simp only [List.map_map, List.mem_map] at hx
      obtain ⟨f, _, hf⟩ := hx
      rw [← hf]
      exact (fileStep_dry_fields f).2.1
  · rw [runSingleCycle_manifest]
    split
    · rename_i hnil
      subst hnil
      rfl
    · have hmap : (files.map (fileStep true)).map (fun s => s.2.1) =
          files.map (fun f => (processFile f.name f.typeInfo f.prev f.content f.ai).plan.toList) := by
        rw [List.map_map]
        apply List.map_congr_left
        intro f _
        exact (fileStep_dry_fields f).1
      rw [hmap, flatten_map_toList]
      rfl

/-! ### Claims C2, C4 and C8: the formatter round-trip, the length cap and
the article preconditions. -/

def c2Data : ValidatedData :=
  { title := some "Quantum Cats", authors := ["Jane Doe", "John Roe", "Ann Poe"],
    year := some "2021", fileType := none, confidence := ⟨1, 1, by decide, by decide⟩,
    documentType := some .article, journal := some "Nature", volume := some "12" }

def c2Bad : ValidatedData :=
  { title := some "Foo", authors := [], year := none, fileType := none,
    confidence := ⟨1, 1, by decide, by decide⟩, documentType := some .book,
    journal := none, volume := none }

def c4Data : ValidatedData :=
  { title := some (String.mk (List.replicate 30 'z')),
    authors := [String.mk (List.replicate 150 'a')], year := some "2024",
    fileType := none, confidence := ⟨1, 1, by decide, by decide⟩,
    documentType := some .article, journal := none, volume := none }

/-- The observed output for `c4Data`: the 20 budgeted title characters, the
separating underscore, and the first 99 characters of the author field — the
hard cap at 120 cuts into the author field and drops the year entirely. -/
def c4Out : List Char := 'Z' :: (List.replicate 19 'z' ++ '_' :: List.replicate 99 'a')

/-- A tightness input for the no-cap threshold: its fixed fields are one
character over the threshold (`fixedLength = 101`), and the assembled name
(20-character budgeted title, 95-character author field, four-digit year)
is 121 characters, so the final truncation fires and cuts the year. -/
def c4Edge : ValidatedData :=
  { title := some (String.mk (List.replicate 30 'z')),
    authors := [String.mk (List.replicate 95 'a')], year := some "2024",
    fileType := none, confidence := ⟨1, 1, by decide, by decide⟩,
    documentType := some .article, journal := none, volume := none }

def c8Year2 : ValidatedData :=
  { title := some "Title", authors := ["Auth"], year := some "12", fileType := none,
    confidence := ⟨1, 1, by decide, by decide⟩, documentType := some .article,
    journal := none, volume := none }

def c8NoYear : ValidatedData :=
  { title := some "Title", authors := ["Auth"], year := none, fileType := none,
    confidence := ⟨1, 1, by decide, by decide⟩, documentType := some .article,
    journal := none, volume := none }

lemma underscore_not_mem_of_allDigits (l : List Char) (h : allDigits l = true) :
    '_' ∉ l := by
  intro hm
  have hd := List.all_eq_true.mp h '_' hm
  exact absurd hd (by decide)

lemma mem_opt_singleton {c : Prop} [Decidable c] {x a : List Char}
    (h : x ∈ (if c then [a] else [])) : x = a ∧ c := by
  split at h
  · exact ⟨by simpa using h, by assumption⟩
  · simp at h

/-- Counterexample to C2 as stated: a book with a title but no authors, year
or file type formats to a bare title, and the resulting name does not match
the processed-format pattern (it has no four-digit year segment), so the next
run re-analyzes the file the previous run just renamed. -/
theorem c2_counterexample :
    SR.formatBaseFilename c2Bad plainInfo = some "Foo" ∧
    looksProcessed ("Foo" ++ ".pdf") = false := by
  exact ⟨by decide, by decide⟩

/-- Claim C2 (amended): the format/classify round-trip holds whenever the
formatted fields are segment-shaped: the fixed metadata fields fit under the
cap (so the final truncation does not fire), every formatted field is
underscore-free, the year field is four digits, a non-empty enumeration is at
least two digits, and — for non-article shapes — the title and author fields
are non-empty.  Without the last proviso the claim fails: book shapes may
legally omit the year (see the counterexample). -/
theorem c2_round_trip_amended (d : ValidatedData) (t : FileTypeInfo) (b : String)
    (hfix : SR.fixedLength d t ≤ 95)
    (hT : '_' ∉ SR.finalTitle d t)
    (hA : '_' ∉ SR.authorsStr d)
    (hJ : '_' ∉ SR.journalStr d)
    (hV : '_' ∉ SR.volumeStr d)
    (hF : '_' ∉ SR.fileTypeStr d)
    (hY : isYear4 (SR.yearStr d) = true)
    (hE : SR.enumStr t ≠ [] → 2 ≤ (SR.enumStr t).length ∧ allDigits (SR.enumStr t) = true)
    (hbook : d.documentType ≠ some DocumentType.article →
      SR.finalTitle d t ≠ [] ∧ SR.authorsStr d ≠ [])
    (hsome : SR.formatBaseFilename d t = some b) :
    looksProcessed (b ++ ".pdf") = true := by
  have hYd : allDigits (SR.yearStr d) = true := by
    have h0 := hY
    simp only [isYear4, Bool.and_eq_true] at h0
    exact h0.2
  have hY4 : (SR.yearStr d).length = 4 := by
    have h0 := hY
    simp only [isYear4, Bool.and_eq_true, decide_eq_true_eq] at h0
    exact h0.1
  have hYne : SR.yearStr d ≠ [] := by
    intro h0
    rw [h0] at hY4
    simp at hY4
  have hYund : '_' ∉ SR.yearStr d := underscore_not_mem_of_allDigits _ hYd
  rw [formatBaseFilename_no_cap d t (by omega)] at hsome
  cases hasm : SR.assembled d t with
  | none => rw [hasm] at hsome; cases hsome
  | some r =>
    rw [hasm] at hsome
    simp only [Option.map_some'] at hsome
    obtain rfl : String.mk r = b := Option.some.inj hsome
    by_cases hart : d.documentType = some DocumentType.article
    · have hasm2 : (if SR.finalTitle d t = [] ∨ SR.authorsStr d = [] ∨ SR.yearStr d = []
          then none
          else some (assembleParts
            ([SR.finalTitle d t, SR.authorsStr d, SR.yearStr d] ++
              (if SR.journalStr d ≠ [] then [SR.journalStr d] else []) ++
              (if SR.volumeStr d ≠ [] then [SR.volumeStr d] else [])))) = some r := by
        rw [← hasm]
        unfold SR.assembled
        rw [hart]
      split at hasm2
      · cases hasm2
      · rename_i hg
        push_neg at hg
        obtain ⟨hTne, hAne, _⟩ := hg
        obtain rfl := Option.some.inj hasm2
        have hne : ∀ x ∈ ([SR.finalTitle d t, SR.authorsStr d, SR.yearStr d] ++
            (if SR.journalStr d ≠ [] then [SR.journalStr d] else []) ++
            (if SR.volumeStr d ≠ [] then [SR.volumeStr d] else [])), x ≠ [] := by
          intro x hx
          rcases List.mem_append.mp hx with hx1 | hxV
          · rcases List.mem_append.mp hx1 with hx3 | hxJ
            · simp only [List.mem_cons, List.not_mem_nil, or_false] at hx3
              rcases hx3 with rfl | rfl | rfl
              · exact hTne
              · exact hAne
              · exact hYne
            · obtain ⟨rfl, hc⟩ := mem_opt_singleton hxJ
              exact hc
          · obtain ⟨rfl, hc⟩ := mem_opt_singleton hxV
            exact hc
        have hund : ∀ x ∈ ([SR.finalTitle d t, SR.authorsStr d, SR.yearStr d] ++
            (if SR.journalStr d ≠ [] then [SR.journalStr d] else []) ++
            (if SR.volumeStr d ≠ [] then [SR.volumeStr d] else [])), '_' ∉ x := by
          intro x hx
          rcases List.mem_append.mp hx with hx1 | hxV
          · rcases List.mem_append.mp hx1 with hx3 | hxJ
            · simp only [List.mem_cons, List.not_mem_nil, or_false] at hx3
              rcases hx3 with rfl | rfl | rfl
              · exact hT
              · exact hA
              · exact hYund
            · obtain ⟨rfl, _⟩ := mem_opt_singleton hxJ
              exact hJ
          · obtain ⟨rfl, _⟩ := mem_opt_singleton hxV
            exact hV
        have hjoin : assembleParts
            ([SR.finalTitle d t, SR.authorsStr d, SR.yearStr d] ++
              (if SR.journalStr d ≠ [] then [SR.journalStr d] else []) ++
              (if SR.volumeStr d ≠ [] then [SR.volumeStr d] else [])) =
            List.intercalate ['_']
              ([SR.finalTitle d t, SR.authorsStr d, SR.yearStr d] ++
                (if SR.journalStr d ≠ [] then [SR.journalStr d] else []) ++
                (if SR.volumeStr d ≠ [] then [SR.volumeStr d] else [])) := by
          unfold assembleParts
          rw [filter_eq_self_of_ne_nil _ hne]
        rw [hjoin]
        apply looksProcessed_intercalate _ hne hund
        left
        refine ⟨?_, ?_⟩
        · simp [List.length_append]
        · have hgd : (([SR.finalTitle d t, SR.authorsStr d, SR.yearStr d] ++
              (if SR.journalStr d ≠ [] then [SR.journalStr d] else []) ++
              (if SR.volumeStr d ≠ [] then [SR.volumeStr d] else [])).getD 2 [])
              = SR.yearStr d := rfl
          rw [hgd]
          exact hY
    · obtain ⟨hTne, hAne⟩ := hbook hart
      have hasm2 : (if SR.finalTitle d t = [] ∧ t.isStructural = false then none
          else if truthy d.year ∧ isYear4 (SR.yearStr d) = false then none
          else some (assembleParts
            ((if SR.enumStr t ≠ [] then [SR.enumStr t] else []) ++
              (if SR.finalTitle d t ≠ [] then [SR.finalTitle d t] else []) ++
              (if SR.authorsStr d ≠ [] then [SR.authorsStr d] else []) ++
              (if SR.yearStr d ≠ [] then [SR.yearStr d] else []) ++
              (if SR.fileTypeStr d ≠ [] then [SR.fileTypeStr d] else [])))) = some r := by
        rw [← hasm]
        unfold SR.assembled
        cases hdoc : d.documentType with
        | none => rfl
        | some dt =>
          cases dt with
          | book => rfl
          | chapter => rfl
          | article => exact absurd hdoc hart
      rw [if_neg (by simp [hTne]), if_neg (by simp [hY]),
        if_pos hTne, if_pos hAne, if_pos hYne] at hasm2
      obtain rfl := Option.some.inj hasm2
      have hneTail : ∀ x ∈ ([SR.finalTitle d t] ++ [SR.authorsStr d] ++ [SR.yearStr d] ++
          (if SR.fileTypeStr d ≠ [] then [SR.fileTypeStr d] else [])), x ≠ [] := by
        intro x hx
        rcases List.mem_append.mp hx with hx1 | hxF
        · rcases List.mem_append.mp hx1 with hx2 | hxY
          · rcases List.mem_append.mp hx2 with hxT | hxA
            · rw [List.mem_singleton.mp hxT]
              exact hTne
            · rw [List.mem_singleton.mp hxA]
              exact hAne
          · rw [List.mem_singleton.mp hxY]
            exact hYne
        · obtain ⟨rfl, hc⟩ := mem_opt_singleton hxF
          exact hc
      have hundTail : ∀ x ∈ ([SR.finalTitle d t] ++ [SR.authorsStr d] ++ [SR.yearStr d] ++
          (if SR.fileTypeStr d ≠ [] then [SR.fileTypeStr d] else [])), '_' ∉ x := by
        intro x hx
        rcases List.mem_append.mp hx with hx1 | hxF
        · rcases List.mem_append.mp hx1 with hx2 | hxY
          · rcases List.mem_append.mp hx2 with hxT | hxA
            · rw [List.mem_singleton.mp hxT]
              exact hT
            · rw [List.mem_singleton.mp hxA]
              exact hA
          · rw [List.mem_singleton.mp hxY]
            exact hYund
        · obtain ⟨rfl, _⟩ := mem_opt_singleton hxF
          exact hF
      by_cases hEe : SR.enumStr t = []
      · rw [if_neg (by simp [hEe])]
        have hne : ∀ x ∈ (([] : List (List Char)) ++ [SR.finalTitle d t] ++
            [SR.authorsStr d] ++ [SR.yearStr d] ++
            (if SR.fileTypeStr d ≠ [] then [SR.fileTypeStr d] else [])), x ≠ [] := by
          intro x hx
          exact hneTail x (by simpa using hx)
        have hund : ∀ x ∈ (([] : List (List Char)) ++ [SR.finalTitle d t] ++
            [SR.authorsStr d] ++ [SR.yearStr d] ++
            (if SR.fileTypeStr d ≠ [] then [SR.fileTypeStr d] else [])), '_' ∉ x := by
          intro x hx
          exact hundTail x (by simpa using hx)
        have hjoin : assembleParts (([] : List (List Char)) ++ [SR.finalTitle d t] ++
            [SR.authorsStr d] ++ [SR.yearStr d] ++
            (if SR.fileTypeStr d ≠ [] then [SR.fileTypeStr d] else [])) =
            List.intercalate ['_'] (([] : List (List Char)) ++ [SR.finalTitle d t] ++
              [SR.authorsStr d] ++ [SR.yearStr d] ++
              (if SR.fileTypeStr d ≠ [] then [SR.fileTypeStr d] else [])) := by
          unfold assembleParts
          rw [filter_eq_self_of_ne_nil _ hne]
        rw [hjoin]
        apply looksProcessed_intercalate _ hne hund
        left
        refine ⟨?_, ?_⟩
        · simp [List.length_append]
        · have hgd : ((([] : List (List Char)) ++ [SR.finalTitle d t] ++
              [SR.authorsStr d] ++ [SR.yearStr d] ++
              (if SR.fileTypeStr d ≠ [] then [SR.fileTypeStr d] else [])).getD 2 [])
              = SR.yearStr d := rfl
          rw [hgd]
          exact hY
      · rw [if_pos hEe]
        obtain ⟨hE2, hEd⟩ := hE hEe
        have hne : ∀ x ∈ ([SR.enumStr t] ++ [SR.finalTitle d t] ++
            [SR.authorsStr d] ++ [SR.yearStr d] ++
            (if SR.fileTypeStr d ≠ [] then [SR.fileTypeStr d] else [])), x ≠ [] := by
          intro x hx
          rcases List.mem_append.mp hx with hx1 | hxF
          · rcases List.mem_append.mp hx1 with hx2 | hxY
            · rcases List.mem_append.mp hx2 with hx3 | hxA
              · rcases List.mem_append.mp hx3 with hxE | hxT
                · rw [List.mem_singleton.mp hxE]
                  exact hEe
                · rw [List.mem_singleton.mp hxT]
                  exact hTne
              · rw [List.mem_singleton.mp hxA]
                exact hAne
            · rw [List.mem_singleton.mp hxY]
              exact hYne
          · obtain ⟨rfl, hc⟩ := mem_opt_singleton hxF
            exact hc
        have hund : ∀ x ∈ ([SR.enumStr t] ++ [SR.finalTitle d t] ++
            [SR.authorsStr d] ++ [SR.yearStr d] ++
            (if SR.fileTypeStr d ≠ [] then [SR.fileTypeStr d] else [])), '_' ∉ x := by
          intro x hx
          rcases List.mem_append.mp hx with hx1 | hxF
          · rcases List.mem_append.mp hx1 with hx2 | hxY
            · rcases List.mem_append.mp hx2 with hx3 | hxA
              · rcases List.mem_append.mp hx3 with hxE | hxT
                · rw [List.mem_singleton.mp hxE]
                  exact underscore_not_mem_of_allDigits _ hEd
                · rw [List.mem_singleton.mp hxT]
                  exact hT
              · rw [List.mem_singleton.mp hxA]
                exact hA
            · rw [List.mem_singleton.mp hxY]
              exact hYund
          · obtain ⟨rfl, _⟩ := mem_opt_singleton hxF
            exact hF
        have hjoin : assembleParts ([SR.enumStr t] ++ [SR.finalTitle d t] ++
            [SR.authorsStr d] ++ [SR.yearStr d] ++
            (if SR.fileTypeStr d ≠ [] then [SR.fileTypeStr d] else [])) =
            List.intercalate ['_'] ([SR.enumStr t] ++ [SR.finalTitle d t] ++
              [SR.authorsStr d] ++ [SR.yearStr d] ++
              (if SR.fileTypeStr d ≠ [] then [SR.fileTypeStr d] else [])) := by
          unfold assembleParts
          rw [filter_eq_self_of_ne_nil _ hne]
        rw [hjoin]
        apply looksProcessed_intercalate _ hne hund
        right
        refine ⟨?_, ?_, ?_, ?_⟩
        · simp [List.length_append]
        · exact hE2
        · exact hEd
        · have hgd : (([SR.enumStr t] ++ [SR.finalTitle d t] ++
              [SR.authorsStr d] ++ [SR.yearStr d] ++
              (if SR.fileTypeStr d ≠ [] then [SR.fileTypeStr d] else [])).getD 3 [])
              = SR.yearStr d := rfl
          rw [hgd]
          exact hY

/-- Witness for C2 (amended): a fully populated article round-trips — the
formatted name, with the journal and volume segments in trailing position,
matches the processed-format pattern. -/
theorem c2_round_trip_witness :
    SR.formatBaseFilename c2Data plainInfo =
      some "QuantumCats_Jane-Doe-EtAl_2021_J-Nature_V12" ∧
    looksProcessed ("QuantumCats_Jane-Doe-EtAl_2021_J-Nature_V12" ++ ".pdf") = true := by
  refine ⟨by decide, ?_⟩
  exact c2_round_trip_amended c2Data plainInfo _ (by decide) (by decide) (by decide)
    (by decide) (by decide) (by decide) (by decide) (by decide) (by decide) (by decide)

/-- Counterexample to C4 as stated: an article whose author field is 150
characters long.  The title is budgeted down to 20 characters, but the
assembled name still exceeds 120 characters, so the final hard truncation
cuts into the author field and drops the four-digit year entirely — the
truncation is not confined to the title. -/
theorem c4_counterexample :
    SR.formatBaseFilename c4Data plainInfo = some (String.mk c4Out) ∧
    SR.yearStr c4Data = "2024".data ∧
    List.isSuffixOf "2024".data c4Out = false ∧
    (SR.authorsStr c4Data).length = 150 ∧
    List.isSuffixOf (SR.authorsStr c4Data) c4Out = false := by
  refine ⟨by decide, by decide, by decide, by decide, by decide⟩

/-- Claim C4 (amended): every returned name respects the configured maximum
(120 in `simple_renamer.ts`, 200 in the `part_002` variant).  The
title-only-truncation part of the claim holds whenever the fixed fields
leave room under the cap (`fixedLength ≤ 100`): then the output is the
untruncated assembly of the budgeted title with the intact fixed fields.
The threshold is tight — at `fixedLength = 101` (`c4Edge`) the hard
truncation fires and cuts fixed fields, so beyond 100 the guarantee fails
(the counterexample's `fixedLength` is 156). -/
theorem c4_length_cap_amended :
    (∀ (d : ValidatedData) (t : FileTypeInfo) (s : String),
      SR.formatBaseFilename d t = some s → s.length ≤ SR.SAFE_MAX) ∧
    (∀ (d : ValidatedData) (t : FileTypeInfo) (s : String),
      P2.formatBaseFilename d t = some s → s.length ≤ P2.MAX_LEN) ∧
    (∀ (d : ValidatedData) (t : FileTypeInfo), SR.fixedLength d t ≤ 100 →
      SR.formatBaseFilename d t = (SR.assembled d t).map (fun r => String.mk r)) ∧
    (SR.fixedLength c4Edge plainInfo = 101 ∧
      SR.formatBaseFilename c4Edge plainInfo ≠
        (SR.assembled c4Edge plainInfo).map (fun r => String.mk r)) := by
  refine ⟨?_, ?_, ?_, by decide, by decide⟩
  · intro d t s h
    unfold SR.formatBaseFilename at h
    cases hasm : SR.assembled d t with
    | none => rw [hasm] at h; cases h
    | some r =>
      rw [hasm] at h
      simp only [Option.map_some'] at h
      obtain rfl := Option.some.inj h
      show (String.mk (if SR.SAFE_MAX < r.length then r.take SR.SAFE_MAX else r)).data.length ≤ _
      split
      · simp [List.length_take]
      · rename_i hlen
        simpa using Nat.le_of_not_lt hlen
  · intro d t s h
    unfold P2.formatBaseFilename at h
    cases hasm : P2.assembled d t with
    | none => rw [hasm] at h; cases h
    | some r =>
      rw [hasm] at h
      simp only [Option.map_some'] at h
      obtain rfl := Option.some.inj h
      show (String.mk (r.take P2.MAX_LEN)).data.length ≤ _
      simp [List.length_take]
  · intro d t hfix
    exact formatBaseFilename_no_cap d t hfix

/-- Witness for C4 (amended) at concrete inputs: the truncated output for
`c4Data` is at most 120 characters, and for the small book input the
formatter output is exactly the untruncated assembly. -/
theorem c4_length_cap_witness :
    (String.mk c4Out).length ≤ SR.SAFE_MAX ∧
    SR.formatBaseFilename c2Bad plainInfo =
      (SR.assembled c2Bad plainInfo).map (fun r => String.mk r) := by
  refine ⟨?_, ?_⟩
  · exact c4_length_cap_amended.1 c4Data plainInfo (String.mk c4Out) (by decide)
  · exact c4_length_cap_amended.2.2.1 c2Bad plainInfo (by decide)

/-- Counterexample to C8 as stated: an article with the two-digit year "12"
is not rejected by `simple_renamer.ts` — the article branch checks only
truthiness of the year, not its shape, so the formatter returns a name whose
year segment is not four digits. -/
theorem c8_counterexample :
    SR.formatBaseFilename c8Year2 plainInfo = some "Title_Auth_12" ∧
    isYear4 (optStr c8Year2.year) = false := by
  exact ⟨by decide, by decide⟩

/-- Claim C8 (amended): for articles, `simple_renamer.ts` returns null
exactly when the budgeted title, the author field or the year field is empty
— missing mandatory fields are rejected, but a present year of the wrong
shape is NOT (see the counterexample); the `part_002` variant additionally
rejects any year that is not exactly four digits. -/
theorem c8_article_preconditions_amended (d : ValidatedData) (t : FileTypeInfo)
    (h : d.documentType = some DocumentType.article) :
    (SR.formatBaseFilename d t = none ↔
      (SR.finalTitle d t = [] ∨ SR.authorsStr d = [] ∨ SR.yearStr d = [])) ∧
    (P2.formatBaseFilename d t = none ↔
      ((!truthy d.title) = true ∨ d.authors = [] ∨ (!truthy d.year) = true ∨
        isYear4 (optStr d.year) = false)) := by
  constructor
  · unfold SR.formatBaseFilename SR.assembled
    rw [h]
    split
    · simp
      tauto
    · rename_i hg
      exact absurd rfl hg
  · unfold P2.formatBaseFilename P2.assembled
    rw [h]
    split
    · simp
      simp only [Bool.eq_false_iff]
      tauto
    · rename_i hg
      exact absurd rfl hg

/-- Witness for C8 (amended): an article with no year is rejected by both
versions, and the `part_002` variant also rejects the two-digit year "12". -/
theorem c8_article_preconditions_witness :
    SR.formatBaseFilename c8NoYear plainInfo = none ∧
    P2.formatBaseFilename c8NoYear plainInfo = none ∧
    P2.formatBaseFilename c8Year2 plainInfo = none := by
  refine ⟨?_, ?_, ?_⟩
  · exact (c8_article_preconditions_amended c8NoYear plainInfo (by decide)).1.mpr (by decide)
  · exact (c8_article_preconditions_amended c8NoYear plainInfo (by decide)).2.mpr (by decide)
  · exact (c8_article_preconditions_amended c8Year2 plainInfo (by decide)).2.mpr (by decide)

end PdfRenamer
